import Mathlib

/-!
Verification development for the chunked_rw repository: a double-buffered
chunked file reader (`file_read_chunks`) and writer (`file_writer_chunks`)
built on the raw buffer primitive `RawData_Buff`.

The C++ sources are shallowly embedded as pure Lean functions over explicit
state records.  Files are byte lists (`List Nat`); the `std::ifstream` /
`std::ofstream` position and eof/fail flag are explicit state.  The
background load thread (reader) and the asynchronous flush tasks (writer)
are linearized at their launch point: the body of the thread/task executes
atomically when it is started, and the corresponding handle stays
"joinable"/"valid" until the code joins it.  This is one legal schedule of
the concurrent program (the only schedule-dependent values are the apparent
sizes written by loads that run past the end of the file, which no theorem
below depends on).  Ghost instrumentation (an event trace, and a swap
counter in the reader) records joins, launches and buffer writes so that the
synchronization discipline can be stated; ghost fields are never read by the
embedded operations themselves.
-/

namespace ChunkedRW

/-- Ghost events recording synchronization-relevant actions: joining a write
future (`joinW`), launching an asynchronous flush (`launchFlush`), copying
into a write accumulator (`memcpyW`), joining the reader's load thread
(`joinLoad`), launching a load into one of the reader's buffers
(`launchLoad`).  The `Bool` selects buffer A (`true`) or B (`false`). -/
inductive Ev where
  | joinW (a : Bool)
  | launchFlush (a : Bool)
  | memcpyW (a : Bool)
  | joinLoad
  | launchLoad (a : Bool)
deriving Repr, DecidableEq

/-! ## RawData_Buff (src/RawData_Buff.h)

`contents` models the allocated byte region (its length is the allocated
size), `size` the apparent size set by `set_apparent_size`, `currIx` the
read cursor. -/

structure RawData_Buff where
  contents : List Nat
  size : Nat
  currIx : Nat
deriving Repr, DecidableEq

def RawData_Buff.totalAlocatedSize (b : RawData_Buff) : Nat := b.contents.length

def RawData_Buff.reset_ix (b : RawData_Buff) : RawData_Buff := { b with currIx := 0 }

def RawData_Buff.remaining (b : RawData_Buff) : Nat := b.size - b.currIx

def RawData_Buff.skipBytes (b : RawData_Buff) (numBytes : Nat) : RawData_Buff :=
  { b with currIx := b.currIx + numBytes }

def RawData_Buff.endReached (b : RawData_Buff) : Bool := b.size ≤ b.currIx

def RawData_Buff.set_apparent_size (b : RawData_Buff) (newSize : Nat) : RawData_Buff :=
  { b with size := newSize }

/-- `fill`: `_size = numBytes; memcpy(_data, buff, numBytes)`.  The copy
overwrites the first `numBytes` bytes of the region and keeps the rest. -/
def RawData_Buff.fill (b : RawData_Buff) (buff : List Nat) : RawData_Buff :=
  { b with size := buff.length,
           contents := buff.take b.contents.length ++ b.contents.drop buff.length }

/-! ## ifstream read primitive

`fileRead file pos fl req` models `_file.read(dst, req)` on an input stream
whose current position is `pos` and whose fail/eof flag is `fl`: it returns
the number of bytes transferred, the new position and the new flag.  Once
the flag is set, nothing further is transferred; a read that transfers
fewer bytes than requested sets the flag. -/

def fileRead (file : List Nat) (pos : Nat) (fl : Bool) (req : Nat) : Nat × Nat × Bool :=
  if fl then (0, pos, true)
  else
    let t := min req (file.length - pos)
    (t, pos + t, decide (t < req))

/-! ## file_read_chunks (src/file_read_chunks.h) -/

structure Reader where
  file : List Nat
  pos : Nat
  fileFail : Bool
  fileByteSize : Nat
  numChunks : Nat
  chunkSize : Nat
  lastChunkSize : Nat
  readingChunk_id : Nat
  isA : Bool
  buff_a : RawData_Buff
  buff_b : RawData_Buff
  threadJoinable : Bool
  swaps : Nat        -- ghost: number of buffer-role toggles
  trace : List Ev    -- ghost: synchronization events
deriving Repr, DecidableEq

def Reader.get_currBuff (s : Reader) : RawData_Buff :=
  if s.isA then s.buff_a else s.buff_b

def Reader.get_othBuff (s : Reader) : RawData_Buff :=
  if s.isA then s.buff_b else s.buff_a

def Reader.setBuff (s : Reader) (intoA : Bool) (b : RawData_Buff) : Reader :=
  if intoA then { s with buff_a := b } else { s with buff_b := b }

/-- `HasMoreForRead`.  `_readingChunk_id >= (_numChunks-1)` is `size_t`
arithmetic: when `_numChunks = 0` the right-hand side wraps to `2^64 - 1`,
so the comparison is false (the id never reaches that value). -/
def Reader.HasMoreForRead (s : Reader) : Bool :=
  let isLastChunk : Bool :=
    if s.numChunks = 0 then false else decide (s.numChunks - 1 ≤ s.readingChunk_id)
  !isLastChunk || !(s.get_currBuff).endReached

def Reader.currBuff_remainingBytes (s : Reader) : Nat := (s.get_currBuff).remaining

/-- `if (_loadThread.joinable()){ _loadThread.join(); }` at the top of
`fetchIntoBuff_thrd`. -/
def Reader.joinLoadThread (s : Reader) : Reader :=
  if s.threadJoinable then
    { s with threadJoinable := false, trace := s.trace ++ [Ev.joinLoad] }
  else s

/-- The launched load thread's body (reset cursor, `_file.read` of
`this_chunk_size` bytes, `set_apparent_size`), linearized at launch; it
reads `_readingChunk_id` as it is at launch time. -/
def Reader.loadBody (s : Reader) (isLoad_intoA : Bool) : Reader :=
  let isLastChunk : Bool := decide (s.readingChunk_id = s.numChunks - 1)
  let this_chunk_size := if isLastChunk then s.lastChunkSize else s.chunkSize
  let b0 := if isLoad_intoA then s.buff_a else s.buff_b
  let b1 := b0.reset_ix
  let r := fileRead s.file s.pos s.fileFail this_chunk_size
  let loaded := (s.file.drop s.pos).take r.1
  let b2 := { b1 with contents := loaded ++ b1.contents.drop r.1 }
  let b3 := b2.set_apparent_size this_chunk_size
  let s1 := s.setBuff isLoad_intoA b3
  { s1 with pos := r.2.1, fileFail := r.2.2, threadJoinable := true,
            trace := s1.trace ++ [Ev.launchLoad isLoad_intoA] }

/-- `fetchIntoBuff_thrd`: joins the previous load thread, returns early if
`_readingChunk_id >= _numChunks`, otherwise launches the load thread. -/
def Reader.fetchIntoBuff_thrd (s : Reader) (isLoad_intoA : Bool) : Reader :=
  let s1 := s.joinLoadThread
  if s1.numChunks ≤ s1.readingChunk_id then s1
  else s1.loadBody isLoad_intoA

def Reader.focus_next_buffer (s : Reader) : Reader :=
  if s.HasMoreForRead = false then s
  else { s with isA := !s.isA, readingChunk_id := s.readingChunk_id + 1,
                swaps := s.swaps + 1 }

/-- `BeginRead` on a freshly constructed `file_read_chunks(chunkBuffSize)`
over the given file bytes.  The unconditional `_loadThread.join()` after the
first fetch throws `std::system_error` if the fetch returned without
starting a thread (which happens exactly for an empty file), modeled as the
`.error` branch. -/
def BeginRead (file : List Nat) (chunkBuffSize : Nat) : Except String Reader :=
  let b : RawData_Buff := ⟨List.replicate chunkBuffSize 0, 0, 0⟩
  let s0 : Reader :=
    { file := file, pos := 0, fileFail := false, fileByteSize := file.length,
      numChunks := 0, chunkSize := chunkBuffSize, lastChunkSize := 0,
      readingChunk_id := 0, isA := true, buff_a := b, buff_b := b,
      threadJoinable := false, swaps := 0, trace := [] }
  let q := file.length / chunkBuffSize
  let r := file.length % chunkBuffSize
  let s1 := { s0 with numChunks := if 0 < r then q + 1 else q,
                      lastChunkSize := if 0 < r then r else chunkBuffSize }
  let s2 := s1.fetchIntoBuff_thrd true
  if s2.threadJoinable then
    let s3 := { s2 with threadJoinable := false, trace := s2.trace ++ [Ev.joinLoad] }
    let s4 := s3.fetchIntoBuff_thrd false
    .ok { s4 with isA := true, readingChunk_id := 0 }
  else
    .error "std system_error: join on a thread that was never started"

/-- The `while(numBytes > 0)` loop of `read_rawData`, with explicit fuel
(the C++ loop does not terminate for some out-of-range requests).  `acc`
accumulates the bytes copied to the output pointer. -/
def readLoop (fuel : Nat) (s : Reader) (numBytes : Nat) (acc : List Nat) :
    Option (List Nat × Reader) :=
  match fuel with
  | 0 => none
  | fuel + 1 =>
    if numBytes = 0 then some (acc, s)
    else
      let buff := s.get_currBuff
      let bufRemain := buff.remaining
      let numCopy := if bufRemain < numBytes then bufRemain else numBytes
      let out := (buff.contents.drop buff.currIx).take numCopy
      let buff2 := buff.skipBytes numCopy
      let s1 := s.setBuff s.isA buff2
      let s2 := if buff2.endReached then (s1.fetchIntoBuff_thrd s1.isA).focus_next_buffer
                else s1
      readLoop fuel s2 (numBytes - numCopy) (acc ++ out)

/-- `read_rawData(out, numBytes)`.  Fuel `2*numBytes + 2` is sufficient for
every in-range read (each loop iteration then copies at least one byte). -/
def read_rawData (s : Reader) (numBytes : Nat) : Option (List Nat × Reader) :=
  readLoop (2 * numBytes + 2) s numBytes []

/-! ## file_writer_chunks (src/file_read_chunks.h) -/

structure Writer where
  file : List Nat
  put : Nat               -- ofstream put position
  buffSizeBytes : Nat
  acc : List Nat          -- the filled prefix (first `next_ix` bytes) of the active accumulator
  isA : Bool
  next_ix : Nat           -- `_next_ix_inBuff`
  numBytesStored : Nat
  validA : Bool           -- `_writeTask_A.valid()`
  validB : Bool           -- `_writeTask_B.valid()`
  began : Bool
  trace : List Ev         -- ghost: synchronization events
deriving Repr, DecidableEq

/-- `seekp(p); write(bs)` on a file: overwrites in place, extends at the
end, zero-fills any gap beyond the old end. -/
def writeAt (file : List Nat) (p : Nat) (bs : List Nat) : List Nat :=
  file.take p ++ List.replicate (p - file.length) 0 ++ bs ++ file.drop (p + bs.length)

/-- `beginWrite(path, startingFilesizeBytes, ios::trunc, bufferSizeBytes)`,
on a fresh `file_writer_chunks`: the file is truncated and then resized to
`startingFilesizeBytes` (zero bytes), and the put position is 0. -/
def beginWrite (startingFilesizeBytes bufferSizeBytes : Nat) : Writer :=
  { file := List.replicate startingFilesizeBytes 0, put := 0,
    buffSizeBytes := bufferSizeBytes, acc := [], isA := true, next_ix := 0,
    numBytesStored := 0, validA := false, validB := false, began := true,
    trace := [] }

/-- The join of the active accumulator's flush future at the top of the
`writeBytes_internal` loop (`_writeTask_X.get()` when valid). -/
def Writer.joinActive (s : Writer) : Writer :=
  if s.isA then
    if s.validA then { s with validA := false, trace := s.trace ++ [Ev.joinW true] } else s
  else
    if s.validB then { s with validB := false, trace := s.trace ++ [Ev.joinW false] } else s

/-- The `while(count > 0)` loop of `writeBytes_internal`, with explicit fuel
(the C++ loop does not terminate when `bufferSizeBytes = 0`).  A full
accumulator is flushed asynchronously; the flush (a write of
`_buffSizeBytes` bytes from the buffer region at the current put position)
is linearized at launch, and the future stays valid until joined. -/
def writeLoop (fuel : Nat) (s : Writer) (bytes : List Nat) : Option Writer :=
  match fuel with
  | 0 => none
  | fuel + 1 =>
    if bytes.length = 0 then some s
    else
      let s := s.joinActive
      let numAvailabile := s.buffSizeBytes - s.next_ix
      let numToWrite := if numAvailabile < bytes.length then numAvailabile else bytes.length
      let s := { s with acc := s.acc ++ bytes.take numToWrite,
                        next_ix := s.next_ix + numToWrite,
                        trace := s.trace ++ [Ev.memcpyW s.isA] }
      if numToWrite < numAvailabile then some s
      else
        let flushed := s.acc.take s.buffSizeBytes
                         ++ List.replicate (s.buffSizeBytes - s.acc.length) 0
        let s := { s with file := writeAt s.file s.put flushed,
                          put := s.put + s.buffSizeBytes,
                          trace := s.trace ++ [Ev.launchFlush s.isA],
                          validA := if s.isA then true else s.validA,
                          validB := if s.isA then s.validB else true }
        let s := { s with isA := !s.isA, next_ix := 0, acc := [] }
        writeLoop fuel s (bytes.drop numToWrite)

/-- `writeBytes` / `writeBytes_internal`: `_numBytesStored += count`, then
the accumulate-and-flush loop.  Fuel `count + 2` is sufficient whenever the
fill offset is below the buffer capacity. -/
def Writer.writeBytes_internal (s : Writer) (bytes : List Nat) : Option Writer :=
  writeLoop (bytes.length + 2)
    { s with numBytesStored := s.numBytesStored + bytes.length } bytes

/-- `if(_writeTask_A.valid()){ _writeTask_A.get(); }`. -/
def Writer.joinTaskA (s : Writer) : Writer :=
  if s.validA then { s with validA := false, trace := s.trace ++ [Ev.joinW true] } else s

/-- `if(_writeTask_B.valid()){ _writeTask_B.get(); }`. -/
def Writer.joinTaskB (s : Writer) : Writer :=
  if s.validB then { s with validB := false, trace := s.trace ++ [Ev.joinW false] } else s

/-- The two unconditional joins at the top of
`ensure_all_buffs_flushed_to_file`. -/
def Writer.joinBoth (s : Writer) : Writer := s.joinTaskA.joinTaskB

/-- `ensure_all_buffs_flushed_to_file`: join both futures, then write the
`_next_ix_inBuff` pending bytes of the active accumulator synchronously. -/
def Writer.ensure_all_buffs_flushed_to_file (s : Writer) : Writer :=
  let s := s.joinBoth
  let count := s.next_ix
  let s := if 0 < count then
             { s with file := writeAt s.file s.put (s.acc.take count), put := s.put + count }
           else s
  { s with next_ix := 0, isA := true, acc := [] }

def Writer.completeWrite (s : Writer) : Writer :=
  let s := s.ensure_all_buffs_flushed_to_file
  { s with began := false }

/-- `overwriteBytes_slow(numBytesOffset_inFile, bytes, count)`.  The
returned `Bool` is `false` when the precondition check
`nn_dev_assert(numBytesOffset_inFile <= p)` fires, in which case the
operation aborts before writing any of `bytes`. -/
def Writer.overwriteBytes_slow (s : Writer) (numBytesOffset_inFile : Nat)
    (bytes : List Nat) : Writer × Bool :=
  let s := s.ensure_all_buffs_flushed_to_file
  let p := s.put
  let fileEmpty_afterFlushAll : Bool := p = 0
  if p < numBytesOffset_inFile then (s, false)
  else
    let s := { s with file := writeAt s.file numBytesOffset_inFile bytes,
                      put := numBytesOffset_inFile + bytes.length }
    if fileEmpty_afterFlushAll then (s, true)
    else ({ s with put := p }, true)

/-! ## Derived pipelines used by the claims -/

/-- A sequence of `writeBytes` calls. -/
def foldWrites : Writer → List (List Nat) → Option Writer
  | s, [] => some s
  | s, b :: rest => (s.writeBytes_internal b).bind (fun s' => foldWrites s' rest)

/-- The full round trip of claim C1: `beginWrite`, a sequence of
`writeBytes` calls, `completeWrite`; then a fresh reader with chunk size
`chunkSize` over the resulting file bytes, reading back as many bytes as
were written. -/
def roundtrip (chunkSize startingFilesizeBytes : Nat) (splits : List (List Nat)) :
    Option (List Nat) :=
  (foldWrites (beginWrite startingFilesizeBytes chunkSize) splits).bind fun w =>
    let g := (w.completeWrite).file
    let n := (splits.flatten).length
    match BeginRead g chunkSize with
    | .error _ => none
    | .ok r => (read_rawData r n).map (fun p => p.1)

/-! ## Concrete runs used by the scenario claims -/

/-- The C2 scenario: chunk size 4, file bytes A..G; three `ReadBytes` calls.
Returns each call's output paired with the swap count after the call, and
the chunk count / last-chunk size computed at open. -/
def c2_run : Option ((List Nat × Nat) × (List Nat × Nat) × (List Nat × Nat) × (Nat × Nat)) :=
  match BeginRead [65, 66, 67, 68, 69, 70, 71] 4 with
  | .error _ => none
  | .ok s0 =>
    (read_rawData s0 2).bind fun (p1 : List Nat × Reader) =>
    (read_rawData p1.2 3).bind fun (p2 : List Nat × Reader) =>
    (read_rawData p2.2 2).map fun (p3 : List Nat × Reader) =>
    ((p1.1, p1.2.swaps), (p2.1, p2.2.swaps), (p3.1, p3.2.swaps),
     (s0.numChunks, s0.lastChunkSize))

/-- The C3 scenario: chunk size 4, 7-byte file, one `ReadBytes(8)` request
(one byte more than the stream holds).  Returns the bytes delivered, the
chunk index and the swap count after the call. -/
def c3_run : Option (List Nat × Nat × Nat) :=
  match BeginRead [0, 1, 2, 3, 4, 5, 6] 4 with
  | .error _ => none
  | .ok s => (read_rawData s 8).map fun (p : List Nat × Reader) =>
      (p.1, p.2.readingChunk_id, p.2.swaps)

/-- The C4 scenario: chunk size 4, 7-byte file; the geometry computed at
open and the apparent sizes the two chunk loads assigned to the buffers. -/
def c4_run : Option (Nat × Nat × Nat × Nat) :=
  match BeginRead [0, 1, 2, 3, 4, 5, 6] 4 with
  | .error _ => none
  | .ok s => some (s.numChunks, s.lastChunkSize, s.buff_a.size, s.buff_b.size)

/-- The C5 scenario: chunk size 4, 1-byte file; read the single byte, then
query `HasMoreForRead`. -/
def c5_run : Option (List Nat × Bool) :=
  match BeginRead [9] 4 with
  | .error _ => none
  | .ok s => (read_rawData s 1).map fun (p : List Nat × Reader) =>
      (p.1, p.2.HasMoreForRead)

end ChunkedRW

namespace ChunkedRW

/-! ## Claim theorems: concrete scenarios -/

/-- C2: with chunk size 4 over the 7-byte file [A,B,C,D,E,F,G], `BeginRead`
computes chunk count 2 and last-chunk size 3, and the calls `ReadBytes(2)`,
`ReadBytes(3)`, `ReadBytes(2)` return "AB", "CDE", "FG"; the swap counter is
0 after the first call and 1 after the second and third, i.e. the single
buffer swap happens while serving the second call and none follows. -/
theorem c2_scenario :
    c2_run = some (([65, 66], 0), ([67, 68, 69], 1), ([70, 71], 1), (2, 3)) := by
  decide

/-- C3 counterexample: requesting 8 bytes from a freshly opened 7-byte
stream (chunk size 4) does not fail: `read_rawData` returns normally with 8
bytes (the last one is stale buffer content, 0 here from the zero-modeled
fresh region), and the stream position is consumed (chunk index 2, two
swaps) — contradicting "fails with a range/short-read error and leaves the
stream position unchanged". -/
theorem c3_counterexample :
    c3_run = some ([0, 1, 2, 3, 4, 5, 6, 0], 2, 2) := by
  decide

/-- C3 amended: `read_rawData` performs no range check.  In the same
scenario the over-long request succeeds, its first 7 bytes are the true
remaining stream content, it delivers the requested byte count, and the
stream position advances past the end. -/
theorem c3_amended_no_range_check :
    (c3_run.map fun p => (p.1.take 7, p.1.length, p.2.1)) = some ([0, 1, 2, 3, 4, 5, 6], 8, 2) := by
  decide

/-- C4 at the failing input (7-byte file, chunk size 4): the chunk count 2
and last-chunk size 3 computed at open match ceil(S/C) and S mod C, but the
load of the final chunk sets the buffer's apparent size to the full chunk
size 4 (the thread computes `isLastChunk` from the not-yet-incremented
`_readingChunk_id`), so the apparent sizes of the chunks loaded sum to
8 ≠ 7. -/
theorem c4_failing_input : c4_run = some (2, 3, 4, 4) := by
  decide

/-- C5 at the failing input (1-byte file, chunk size 4): after the single
byte of the stream has been consumed, `HasMoreForRead` returns `true` (the
exhaustion-triggered fetch reloads and resets the just-finished buffer and
the swap logic advances to a phantom chunk), contradicting "false exactly
once all bytes have been consumed". -/
theorem c5_failing_input : c5_run = some ([9], true) := by
  decide

/-! ## Claim C9: the RawData_Buff invariant -/

/-- The ChunkBuffer invariant of the spec: cursor ≤ apparent size ≤
allocated capacity. -/
def BuffInv (b : RawData_Buff) : Prop :=
  b.currIx ≤ b.size ∧ b.size ≤ b.totalAlocatedSize

instance (b : RawData_Buff) : Decidable (BuffInv b) := by
  unfold BuffInv; infer_instance

/-- C9 counterexample: the buffer with capacity 4, apparent size 4 and
cursor 4 satisfies the invariant, and `set_apparent_size 2` satisfies the
claim's stated precondition (2 ≤ capacity), yet the result violates
cursor ≤ apparent-size: `set_apparent_size` does not touch the cursor. -/
theorem c9_counterexample :
    BuffInv (⟨[0, 0, 0, 0], 4, 4⟩ : RawData_Buff) ∧
    2 ≤ (⟨[0, 0, 0, 0], 4, 4⟩ : RawData_Buff).totalAlocatedSize ∧
    ¬ BuffInv ((⟨[0, 0, 0, 0], 4, 4⟩ : RawData_Buff).set_apparent_size 2) := by
  decide

/-- C9 amended: every `RawData_Buff` operation preserves the invariant
cursor ≤ apparent-size ≤ capacity under its precondition, where
`set_apparent_size` and `fill` additionally require the new apparent size
to be at least the current cursor (the source always calls them after
`reset_ix`); `reset_ix` zeroes the cursor and keeps the apparent size,
`remaining` is apparent-size minus cursor, and `endReached` holds exactly
when the cursor has reached the apparent size. -/
theorem c9_buffer_invariant (b : RawData_Buff) (n : Nat) (h : BuffInv b) :
    (BuffInv b.reset_ix ∧ b.reset_ix.currIx = 0 ∧ b.reset_ix.size = b.size) ∧
    (n ≤ b.remaining → BuffInv (b.skipBytes n)) ∧
    (n ≤ b.totalAlocatedSize → b.currIx ≤ n → BuffInv (b.set_apparent_size n)) ∧
    (∀ bs : List Nat, bs.length ≤ b.totalAlocatedSize → b.currIx ≤ bs.length →
        BuffInv (b.fill bs)) ∧
    b.remaining + b.currIx = b.size ∧
    (b.endReached = true ↔ b.size ≤ b.currIx) := by
  obtain ⟨h1, h2⟩ := h
  refine ⟨⟨⟨Nat.zero_le _, h2⟩, rfl, rfl⟩, ?_, ?_, ?_, ?_, ?_⟩
  · intro hn
    exact ⟨by simp only [RawData_Buff.skipBytes, RawData_Buff.remaining] at *; omega, h2⟩
  · intro hcap hix
    exact ⟨hix, hcap⟩
  · intro bs hcap hix
    refine ⟨hix, ?_⟩
    simp only [RawData_Buff.fill, RawData_Buff.totalAlocatedSize] at *
    simp only [List.length_append, List.length_take, List.length_drop]
    omega
  · simp only [RawData_Buff.remaining]; omega
  · simp only [RawData_Buff.endReached, decide_eq_true_eq]

/-- Witness for `c9_buffer_invariant` at a concrete buffer. -/
theorem c9_buffer_invariant_witness :
    BuffInv ((⟨[0, 0], 1, 1⟩ : RawData_Buff).reset_ix) :=
  ((c9_buffer_invariant ⟨[0, 0], 1, 1⟩ 1 (by decide)).1).1

/-! ## Writer correctness: the append invariant

`WInv startSize w s` says that writer state `s` holds the logical stream
`w` (everything passed to `writeBytes` so far, plus anything placed by the
first-write special case of `overwriteBytes_slow`): the file's first `put`
bytes are the flushed part of `w`, the active accumulator holds the rest,
and the fill offset is strictly below the buffer capacity. -/

def WInv (startSize : Nat) (w : List Nat) (s : Writer) : Prop :=
  s.began = true ∧ 0 < s.buffSizeBytes ∧ s.next_ix = s.acc.length ∧
  s.next_ix < s.buffSizeBytes ∧ s.put + s.acc.length = w.length ∧
  s.file.take s.put = w.take s.put ∧ s.acc = w.drop s.put ∧
  s.file.length = max startSize s.put

@[simp] theorem joinActive_file (s : Writer) : s.joinActive.file = s.file := by
  unfold Writer.joinActive; split <;> split <;> rfl

@[simp] theorem joinActive_put (s : Writer) : s.joinActive.put = s.put := by
  unfold Writer.joinActive; split <;> split <;> rfl

@[simp] theorem joinActive_buffSizeBytes (s : Writer) :
    s.joinActive.buffSizeBytes = s.buffSizeBytes := by
  unfold Writer.joinActive; split <;> split <;> rfl

@[simp] theorem joinActive_acc (s : Writer) : s.joinActive.acc = s.acc := by
  unfold Writer.joinActive; split <;> split <;> rfl

@[simp] theorem joinActive_isA (s : Writer) : s.joinActive.isA = s.isA := by
  unfold Writer.joinActive; split <;> split <;> rfl

@[simp] theorem joinActive_next_ix (s : Writer) : s.joinActive.next_ix = s.next_ix := by
  unfold Writer.joinActive; split <;> split <;> rfl

@[simp] theorem joinActive_numBytesStored (s : Writer) :
    s.joinActive.numBytesStored = s.numBytesStored := by
  unfold Writer.joinActive; split <;> split <;> rfl

@[simp] theorem joinActive_began (s : Writer) : s.joinActive.began = s.began := by
  unfold Writer.joinActive; split <;> split <;> rfl

theorem writeAt_eq_of_le (file bs : List Nat) (p : Nat) (h : p ≤ file.length) :
    writeAt file p bs = file.take p ++ bs ++ file.drop (p + bs.length) := by
  unfold writeAt
  rw [Nat.sub_eq_zero_of_le h]
  simp

theorem writeAt_length_of_le (file bs : List Nat) (p : Nat) (h : p ≤ file.length) :
    (writeAt file p bs).length = max file.length (p + bs.length) := by
  rw [writeAt_eq_of_le _ _ _ h]
  simp only [List.length_append, List.length_take, List.length_drop]
  omega

theorem writeAt_take (file bs : List Nat) (p : Nat) (h : p ≤ file.length) :
    (writeAt file p bs).take (p + bs.length) = file.take p ++ bs := by
  rw [writeAt_eq_of_le _ _ _ h]
  refine List.take_left' ?_
  simp only [List.length_append, List.length_take]
  omega

/-- The `writeBytes_internal` loop preserves `WInv`, appending the written
bytes to the logical stream; fuel exceeding the byte count suffices. -/
theorem writeLoop_WInv (startSize : Nat) :
    ∀ (fuel : Nat) (s : Writer) (bytes w : List Nat),
      WInv startSize w s → bytes.length < fuel →
      ∃ s', writeLoop fuel s bytes = some s' ∧ WInv startSize (w ++ bytes) s' := by
  intro fuel
  induction fuel with
  | zero => intro s bytes w _ h; omega
  | succ fuel ih =>
    intro s bytes w hinv hlen
    by_cases hb : bytes.length = 0
    · refine ⟨s, by simp [writeLoop, hb], ?_⟩
      have : bytes = [] := List.length_eq_zero.mp hb
      subst this
      simpa using hinv
    · obtain ⟨hbegan, hB, hnix, hlt, hplen, htake, hacc, hflen⟩ := hinv
      have hput_le_w : s.put ≤ w.length := by omega
      have hput_le_f : s.put ≤ s.file.length := by omega
      have hacclen : s.acc.length = w.length - s.put := by
        rw [hacc]; simp
      rw [writeLoop]
      rw [if_neg hb]
      simp only [joinActive_file, joinActive_put, joinActive_buffSizeBytes, joinActive_acc,
        joinActive_isA, joinActive_next_ix, joinActive_numBytesStored, joinActive_began]
      by_cases hsplit : (if s.buffSizeBytes - s.next_ix < bytes.length
                          then s.buffSizeBytes - s.next_ix else bytes.length)
                        < s.buffSizeBytes - s.next_ix
      · -- partial fill: the call returns with the accumulator not yet full
        rw [if_pos hsplit]
        have ht : (if s.buffSizeBytes - s.next_ix < bytes.length
                    then s.buffSizeBytes - s.next_ix else bytes.length) = bytes.length := by
          by_cases hc : s.buffSizeBytes - s.next_ix < bytes.length
          · rw [if_pos hc] at hsplit ⊢; omega
          · rw [if_neg hc]
        rw [ht] at hsplit ⊢
        refine ⟨_, rfl, ?_⟩
        simp only [WInv, joinActive_file, joinActive_put, joinActive_buffSizeBytes,
          joinActive_acc, joinActive_isA, joinActive_next_ix, joinActive_numBytesStored,
          joinActive_began, List.take_length]
        refine ⟨hbegan, hB, ?_, ?_, ?_, ?_, ?_, hflen⟩
        · simp only [List.length_append]; omega
        · omega
        · simp only [List.length_append]; omega
        · rw [List.take_append_of_le_length hput_le_w]; exact htake
        · rw [List.drop_append_of_le_length hput_le_w, hacc]
      · -- the accumulator fills exactly: flush, toggle, recurse
        rw [if_neg hsplit]
        have ht : (if s.buffSizeBytes - s.next_ix < bytes.length
                    then s.buffSizeBytes - s.next_ix else bytes.length)
                  = s.buffSizeBytes - s.next_ix := by
          by_cases hc : s.buffSizeBytes - s.next_ix < bytes.length
          · rw [if_pos hc]
          · rw [if_neg hc] at hsplit ⊢; omega
        have htle : s.buffSizeBytes - s.next_ix ≤ bytes.length := by
          by_cases hc : s.buffSizeBytes - s.next_ix < bytes.length
          · omega
          · rw [if_neg hc] at ht hsplit; omega
        rw [ht] at hsplit ⊢
        set t := s.buffSizeBytes - s.next_ix with hdef_t
        have htpos : 0 < t := by omega
        have hacc1len : (s.acc ++ bytes.take t).length = s.buffSizeBytes := by
          simp only [List.length_append, List.length_take]
          omega
        have hflushed : (s.acc ++ bytes.take t).take s.buffSizeBytes
              ++ List.replicate (s.buffSizeBytes - (s.acc ++ bytes.take t).length) 0
              = s.acc ++ bytes.take t := by
          rw [hacc1len]
          simp [List.take_of_length_le (le_of_eq hacc1len)]
        simp only [hflushed]
        rw [show w ++ bytes = (w ++ bytes.take t) ++ bytes.drop t by
              rw [List.append_assoc, List.take_append_drop]]
        refine ih _ _ _ ?_ (by simp only [List.length_drop]; omega)
        simp only [WInv, joinActive_file, joinActive_put, joinActive_buffSizeBytes,
          joinActive_acc, joinActive_isA, joinActive_next_ix, joinActive_numBytesStored,
          joinActive_began, List.length_nil]
        refine ⟨hbegan, hB, by trivial, hB, ?_, ?_, ?_, ?_⟩
        · simp only [List.length_append, List.length_take]; omega
        · have hw := writeAt_take s.file (s.acc ++ bytes.take t) s.put hput_le_f
          rw [hacc1len] at hw
          rw [show (w ++ bytes.take t).take (s.put + s.buffSizeBytes)
                  = w ++ bytes.take t from List.take_of_length_le
                (by simp only [List.length_append, List.length_take]; omega)]
          rw [hw, htake, hacc, ← List.append_assoc, List.take_append_drop]
        · rw [show s.put + s.buffSizeBytes = (w ++ bytes.take t).length from by
                simp only [List.length_append, List.length_take]; omega,
              List.drop_length]
        · rw [writeAt_length_of_le _ _ _ hput_le_f, hacc1len, hflen]
          omega

@[simp] theorem joinTaskA_file (s : Writer) : s.joinTaskA.file = s.file := by
  unfold Writer.joinTaskA; split <;> rfl

@[simp] theorem joinTaskA_put (s : Writer) : s.joinTaskA.put = s.put := by
  unfold Writer.joinTaskA; split <;> rfl

@[simp] theorem joinTaskA_buffSizeBytes (s : Writer) :
    s.joinTaskA.buffSizeBytes = s.buffSizeBytes := by
  unfold Writer.joinTaskA; split <;> rfl

@[simp] theorem joinTaskA_acc (s : Writer) : s.joinTaskA.acc = s.acc := by
  unfold Writer.joinTaskA; split <;> rfl

@[simp] theorem joinTaskA_isA (s : Writer) : s.joinTaskA.isA = s.isA := by
  unfold Writer.joinTaskA; split <;> rfl

@[simp] theorem joinTaskA_next_ix (s : Writer) : s.joinTaskA.next_ix = s.next_ix := by
  unfold Writer.joinTaskA; split <;> rfl

@[simp] theorem joinTaskA_numBytesStored (s : Writer) :
    s.joinTaskA.numBytesStored = s.numBytesStored := by
  unfold Writer.joinTaskA; split <;> rfl

@[simp] theorem joinTaskA_began (s : Writer) : s.joinTaskA.began = s.began := by
  unfold Writer.joinTaskA; split <;> rfl

@[simp] theorem joinTaskA_validA (s : Writer) : s.joinTaskA.validA = false := by
  unfold Writer.joinTaskA; split <;> simp_all

@[simp] theorem joinTaskA_validB (s : Writer) : s.joinTaskA.validB = s.validB := by
  unfold Writer.joinTaskA; split <;> rfl

@[simp] theorem joinTaskB_file (s : Writer) : s.joinTaskB.file = s.file := by
  unfold Writer.joinTaskB; split <;> rfl

@[simp] theorem joinTaskB_put (s : Writer) : s.joinTaskB.put = s.put := by
  unfold Writer.joinTaskB; split <;> rfl

@[simp] theorem joinTaskB_buffSizeBytes (s : Writer) :
    s.joinTaskB.buffSizeBytes = s.buffSizeBytes := by
  unfold Writer.joinTaskB; split <;> rfl

@[simp] theorem joinTaskB_acc (s : Writer) : s.joinTaskB.acc = s.acc := by
  unfold Writer.joinTaskB; split <;> rfl

@[simp] theorem joinTaskB_isA (s : Writer) : s.joinTaskB.isA = s.isA := by
  unfold Writer.joinTaskB; split <;> rfl

@[simp] theorem joinTaskB_next_ix (s : Writer) : s.joinTaskB.next_ix = s.next_ix := by
  unfold Writer.joinTaskB; split <;> rfl

@[simp] theorem joinTaskB_numBytesStored (s : Writer) :
    s.joinTaskB.numBytesStored = s.numBytesStored := by
  unfold Writer.joinTaskB; split <;> rfl

@[simp] theorem joinTaskB_began (s : Writer) : s.joinTaskB.began = s.began := by
  unfold Writer.joinTaskB; split <;> rfl

@[simp] theorem joinTaskB_validA (s : Writer) : s.joinTaskB.validA = s.validA := by
  unfold Writer.joinTaskB; split <;> rfl

@[simp] theorem joinTaskB_validB (s : Writer) : s.joinTaskB.validB = false := by
  unfold Writer.joinTaskB; split <;> simp_all

@[simp] theorem joinBoth_file (s : Writer) : s.joinBoth.file = s.file := by
  unfold Writer.joinBoth; simp

@[simp] theorem joinBoth_put (s : Writer) : s.joinBoth.put = s.put := by
  unfold Writer.joinBoth; simp

@[simp] theorem joinBoth_buffSizeBytes (s : Writer) :
    s.joinBoth.buffSizeBytes = s.buffSizeBytes := by
  unfold Writer.joinBoth; simp

@[simp] theorem joinBoth_acc (s : Writer) : s.joinBoth.acc = s.acc := by
  unfold Writer.joinBoth; simp

@[simp] theorem joinBoth_isA (s : Writer) : s.joinBoth.isA = s.isA := by
  unfold Writer.joinBoth; simp

@[simp] theorem joinBoth_next_ix (s : Writer) : s.joinBoth.next_ix = s.next_ix := by
  unfold Writer.joinBoth; simp

@[simp] theorem joinBoth_numBytesStored (s : Writer) :
    s.joinBoth.numBytesStored = s.numBytesStored := by
  unfold Writer.joinBoth; simp

@[simp] theorem joinBoth_began (s : Writer) : s.joinBoth.began = s.began := by
  unfold Writer.joinBoth; simp

@[simp] theorem joinBoth_validA (s : Writer) : s.joinBoth.validA = false := by
  unfold Writer.joinBoth; simp

@[simp] theorem joinBoth_validB (s : Writer) : s.joinBoth.validB = false := by
  unfold Writer.joinBoth; simp

/-- `writeBytes` preserves the append invariant and always succeeds on an
invariant-satisfying state. -/
theorem writeBytes_internal_WInv (startSize : Nat) (s : Writer) (bytes w : List Nat)
    (h : WInv startSize w s) :
    ∃ s', s.writeBytes_internal bytes = some s' ∧ WInv startSize (w ++ bytes) s' := by
  unfold Writer.writeBytes_internal
  exact writeLoop_WInv startSize (bytes.length + 2) _ bytes w h (by omega)

theorem beginWrite_WInv (startSize buffSize : Nat) (hB : 0 < buffSize) :
    WInv startSize [] (beginWrite startSize buffSize) := by
  refine ⟨rfl, hB, rfl, hB, rfl, rfl, rfl, ?_⟩
  simp [beginWrite]

/-- A sequence of `writeBytes` calls preserves the invariant, appending the
concatenation of all the pieces. -/
theorem foldWrites_WInv (startSize : Nat) :
    ∀ (splits : List (List Nat)) (s : Writer) (w : List Nat), WInv startSize w s →
      ∃ s', foldWrites s splits = some s' ∧ WInv startSize (w ++ splits.flatten) s' := by
  intro splits
  induction splits with
  | nil => intro s w h; exact ⟨s, rfl, by simpa using h⟩
  | cons b rest ih =>
    intro s w h
    obtain ⟨s1, h1, hinv1⟩ := writeBytes_internal_WInv startSize s b w h
    obtain ⟨s2, h2, hinv2⟩ := ih s1 (w ++ b) hinv1
    refine ⟨s2, ?_, ?_⟩
    · simp only [foldWrites, h1, Option.bind_some]
      exact h2
    · simpa [List.append_assoc] using hinv2

/-- `completeWrite` flushes the pending accumulator: the first `w.length`
bytes of the resulting file are exactly the logical stream `w`. -/
theorem completeWrite_file (startSize : Nat) (w : List Nat) (s : Writer)
    (h : WInv startSize w s) :
    (s.completeWrite).file.take w.length = w ∧
    (s.completeWrite).file.length = max startSize w.length := by
  obtain ⟨hbegan, hB, hnix, hlt, hplen, htake, hacc, hflen⟩ := h
  have hput_le_w : s.put ≤ w.length := by omega
  have hput_le_f : s.put ≤ s.file.length := by omega
  simp only [Writer.completeWrite, Writer.ensure_all_buffs_flushed_to_file,
    joinBoth_file, joinBoth_put, joinBoth_acc, joinBoth_next_ix]
  by_cases hc : 0 < s.next_ix
  · rw [if_pos hc]
    dsimp only
    have htk : s.acc.take s.next_ix = s.acc := by
      rw [hnix]; exact List.take_length s.acc
    rw [htk]
    have hw := writeAt_take s.file s.acc s.put hput_le_f
    constructor
    · rw [show w.length = s.put + s.acc.length from by omega, hw, htake, hacc,
          List.take_append_drop]
    · rw [writeAt_length_of_le _ _ _ hput_le_f, hflen]
      omega
  · rw [if_neg hc]
    simp only [joinBoth_file]
    have hacc0 : s.acc = [] := by
      have : s.acc.length = 0 := by omega
      exact List.length_eq_zero.mp this
    have hwp : w.length = s.put := by rw [hacc0] at hplen; simpa using hplen.symm
    constructor
    · rw [hwp, htake, ← hwp, List.take_length]
    · rw [hflen, hwp]

/-- `overwriteBytes_slow` at offset 0 on a freshly opened writer: both
accumulators are empty and nothing was ever flushed, so the put position is
still 0 after the flush-all, the `fileEmpty_afterFlushAll` special case
applies, and the put position is left after the overwritten bytes. -/
theorem overwrite_fresh (startSize buffSize : Nat) (bs : List Nat) :
    (beginWrite startSize buffSize).overwriteBytes_slow 0 bs =
      ({ beginWrite startSize buffSize with
           file := writeAt (List.replicate startSize 0) 0 bs,
           put := 0 + bs.length }, true) := rfl

/-- C6: when `OverwriteBytes` at file offset 0 is the very first write on a
freshly opened writer (append position still 0), the seek-back is skipped —
the put position after the call is `bs.length`, not 0 — and subsequent
sequential `writeBytes` plus `completeWrite` place their bytes immediately
after the `bs.length` overwritten bytes. -/
theorem c6_overwrite_at_zero_first_write (startSize buffSize : Nat) (bs cs : List Nat)
    (hB : 0 < buffSize) :
    ∃ s1 s2, (beginWrite startSize buffSize).overwriteBytes_slow 0 bs = (s1, true) ∧
      s1.put = bs.length ∧
      s1.writeBytes_internal cs = some s2 ∧
      (s2.completeWrite).file.take (bs.length + cs.length) = bs ++ cs := by
  have h1 := overwrite_fresh startSize buffSize bs
  have hrep : (List.replicate startSize (0 : Nat)).length = startSize :=
    List.length_replicate startSize 0
  have hinv1 : WInv startSize bs
      ({ beginWrite startSize buffSize with
           file := writeAt (List.replicate startSize 0) 0 bs,
           put := 0 + bs.length }) := by
    refine ⟨rfl, hB, rfl, hB, by simp [beginWrite], ?_, by simp [beginWrite], ?_⟩
    · have hw := writeAt_take (List.replicate startSize 0) bs 0 (Nat.zero_le _)
      simp only [List.take_zero, List.nil_append] at hw
      simp only [hw]
      simp
    · rw [writeAt_length_of_le _ _ _ (Nat.zero_le _), hrep]
  obtain ⟨s2, h2, hinv2⟩ := writeBytes_internal_WInv startSize _ cs bs hinv1
  obtain ⟨h3, _⟩ := completeWrite_file startSize (bs ++ cs) s2 hinv2
  refine ⟨_, s2, h1, by simp, h2, ?_⟩
  rw [← List.length_append]
  exact h3

/-- Witness for `c6_overwrite_at_zero_first_write`. -/
theorem c6_overwrite_at_zero_first_write_witness :
    0 < 2 ∧
    ∃ s1 s2, (beginWrite 2 2).overwriteBytes_slow 0 [5] = (s1, true) ∧
      s1.put = [5].length ∧
      s1.writeBytes_internal [6, 7, 8] = some s2 ∧
      (s2.completeWrite).file.take ([5].length + [6, 7, 8].length) = [5] ++ [6, 7, 8] :=
  ⟨by decide, c6_overwrite_at_zero_first_write 2 2 [5] [6, 7, 8] (by decide)⟩

@[simp] theorem ensure_all_validA (s : Writer) :
    (s.ensure_all_buffs_flushed_to_file).validA = false := by
  simp only [Writer.ensure_all_buffs_flushed_to_file]
  split <;> simp

@[simp] theorem ensure_all_validB (s : Writer) :
    (s.ensure_all_buffs_flushed_to_file).validB = false := by
  simp only [Writer.ensure_all_buffs_flushed_to_file]
  split <;> simp

/-- C7: `overwriteBytes_slow` first joins all in-flight flushes of both
accumulators (in every outcome both write-task handles are invalid
afterwards), and when the requested offset exceeds the put position that is
current after that flush-all, the `nn_dev_assert(offset <= p)` precondition
check fires before the seek and write: the call fails and the state is
exactly the flushed state — none of the payload bytes reach the file. -/
theorem c7_overwrite_range_error (s : Writer) (off : Nat) (bytes : List Nat) :
    (s.overwriteBytes_slow off bytes).1.validA = false ∧
    (s.overwriteBytes_slow off bytes).1.validB = false ∧
    ((s.ensure_all_buffs_flushed_to_file).put < off →
      s.overwriteBytes_slow off bytes = (s.ensure_all_buffs_flushed_to_file, false)) := by
  refine ⟨?_, ?_, ?_⟩
  · simp only [Writer.overwriteBytes_slow]
    split
    · simp
    · split <;> simp
  · simp only [Writer.overwriteBytes_slow]
    split
    · simp
    · split <;> simp
  · intro h
    simp only [Writer.overwriteBytes_slow]
    rw [if_pos h]

/-- Witness for `c7_overwrite_range_error`: a writer holding 3 unflushed
bytes, asked to overwrite at offset 10 while the append position is 3. -/
theorem c7_overwrite_range_error_witness :
    ((writeLoop 5 (beginWrite 0 4) [1, 2, 3]).getD (beginWrite 0 4)).ensure_all_buffs_flushed_to_file.put < 10 ∧
    ((writeLoop 5 (beginWrite 0 4) [1, 2, 3]).getD (beginWrite 0 4)).overwriteBytes_slow 10 [7]
      = (((writeLoop 5 (beginWrite 0 4) [1, 2, 3]).getD (beginWrite 0 4)).ensure_all_buffs_flushed_to_file, false) :=
  ⟨by decide,
   (c7_overwrite_range_error ((writeLoop 5 (beginWrite 0 4) [1, 2, 3]).getD (beginWrite 0 4))
      10 [7]).2.2 (by decide)⟩

/-- The `writeBytes` loop keeps the fill offset equal to the active
accumulator's filled length and strictly below the capacity. -/
theorem writeLoop_basic :
    ∀ (fuel : Nat) (s : Writer) (bytes : List Nat),
      s.next_ix = s.acc.length → s.next_ix < s.buffSizeBytes → bytes.length < fuel →
      ∃ s', writeLoop fuel s bytes = some s' ∧ s'.next_ix = s'.acc.length ∧
        s'.next_ix < s'.buffSizeBytes := by
  intro fuel
  induction fuel with
  | zero => intro s bytes _ _ h; omega
  | succ fuel ih =>
    intro s bytes h1 h2 hlen
    by_cases hb : bytes.length = 0
    · exact ⟨s, by simp [writeLoop, hb], h1, h2⟩
    · rw [writeLoop, if_neg hb]
      simp only [joinActive_file, joinActive_put, joinActive_buffSizeBytes, joinActive_acc,
        joinActive_isA, joinActive_next_ix, joinActive_numBytesStored, joinActive_began]
      by_cases hsplit : (if s.buffSizeBytes - s.next_ix < bytes.length
                          then s.buffSizeBytes - s.next_ix else bytes.length)
                        < s.buffSizeBytes - s.next_ix
      · rw [if_pos hsplit]
        have ht : (if s.buffSizeBytes - s.next_ix < bytes.length
                    then s.buffSizeBytes - s.next_ix else bytes.length) = bytes.length := by
          by_cases hc : s.buffSizeBytes - s.next_ix < bytes.length
          · rw [if_pos hc] at hsplit ⊢; omega
          · rw [if_neg hc]
        rw [ht] at hsplit ⊢
        refine ⟨_, rfl, ?_, ?_⟩
        · show s.next_ix + bytes.length = (s.acc ++ bytes.take bytes.length).length
          simp only [List.length_append, List.length_take]
          omega
        · show s.next_ix + bytes.length < s.buffSizeBytes
          omega
      · rw [if_neg hsplit]
        have ht : (if s.buffSizeBytes - s.next_ix < bytes.length
                    then s.buffSizeBytes - s.next_ix else bytes.length)
                  = s.buffSizeBytes - s.next_ix := by
          by_cases hc : s.buffSizeBytes - s.next_ix < bytes.length
          · rw [if_pos hc]
          · rw [if_neg hc] at hsplit ⊢; omega
        have htle : s.buffSizeBytes - s.next_ix ≤ bytes.length := by
          by_cases hc : s.buffSizeBytes - s.next_ix < bytes.length
          · omega
          · rw [if_neg hc] at ht hsplit; omega
        rw [ht] at hsplit ⊢
        have htpos : 0 < s.buffSizeBytes - s.next_ix := by omega
        refine ih _ (bytes.drop (s.buffSizeBytes - s.next_ix)) ?_ ?_ ?_
        · rfl
        · show (0 : Nat) < s.buffSizeBytes
          omega
        · simp only [List.length_drop]
          omega

/-- The `writeBytes` loop never changes the buffer capacity. -/
theorem writeLoop_buffSize :
    ∀ (fuel : Nat) (s : Writer) (bytes : List Nat) (s' : Writer),
      writeLoop fuel s bytes = some s' → s'.buffSizeBytes = s.buffSizeBytes := by
  intro fuel
  induction fuel with
  | zero => intro s bytes s' h; simp [writeLoop] at h
  | succ fuel ih =>
    intro s bytes s' h
    rw [writeLoop] at h
    by_cases hb : bytes.length = 0
    · rw [if_pos hb] at h
      injection h with h
      rw [← h]
    · rw [if_neg hb] at h
      dsimp only at h
      split at h
      all_goals split at h
      all_goals
        first
          | (injection h with h
             rw [← h]
             show s.joinActive.buffSizeBytes = s.buffSizeBytes
             simp)
          | (rw [ih _ _ _ h]
             show s.joinActive.buffSizeBytes = s.buffSizeBytes
             simp)

/-- C10: after every `writeBytes` call the fill offset is strictly below
the buffer capacity; in particular a call whose bytes exactly fill the
active accumulator launches the asynchronous flush of the full buffer (the
put position advances by the full capacity and the flushed accumulator's
future becomes valid), toggles the active-buffer role and resets the fill
offset to 0 even though no input bytes remain. -/
theorem c10_fill_offset_below_capacity (s : Writer) (bytes : List Nat)
    (h1 : s.next_ix = s.acc.length) (h2 : s.next_ix < s.buffSizeBytes) :
    ∃ s', s.writeBytes_internal bytes = some s' ∧
      s'.next_ix = s'.acc.length ∧ s'.next_ix < s'.buffSizeBytes ∧
      s'.buffSizeBytes = s.buffSizeBytes ∧
      (bytes.length = s.buffSizeBytes - s.next_ix →
        s'.next_ix = 0 ∧ s'.isA = (!s.isA) ∧
        (if s.isA then s'.validA else s'.validB) = true ∧
        s'.put = s.put + s.buffSizeBytes) := by
  by_cases hexact : bytes.length = s.buffSizeBytes - s.next_ix
  · have hb : ¬ bytes.length = 0 := by omega
    unfold Writer.writeBytes_internal
    rw [show bytes.length + 2 = (bytes.length + 1) + 1 from rfl]
    rw [writeLoop, if_neg hb]
    simp only [joinActive_file, joinActive_put, joinActive_buffSizeBytes, joinActive_acc,
      joinActive_isA, joinActive_next_ix, joinActive_numBytesStored, joinActive_began]
    rw [if_neg (show ¬ s.buffSizeBytes - s.next_ix < bytes.length by omega)]
    rw [if_neg (show ¬ bytes.length < s.buffSizeBytes - s.next_ix by omega)]
    have hlenAB : (s.acc ++ bytes.take bytes.length).length = s.buffSizeBytes := by
      simp only [List.length_append, List.take_length, List.length_take]
      omega
    have hfl : (s.acc ++ bytes.take bytes.length).take s.buffSizeBytes
          ++ List.replicate (s.buffSizeBytes - (s.acc ++ bytes.take bytes.length).length) 0
          = s.acc ++ bytes.take bytes.length := by
      rw [hlenAB, Nat.sub_self, List.replicate_zero, List.append_nil]
      exact List.take_of_length_le (le_of_eq hlenAB)
    rw [hfl]
    rw [show bytes.drop bytes.length = ([] : List Nat) from List.drop_length bytes]
    rw [writeLoop, if_pos (by simp)]
    refine ⟨_, rfl, rfl, ?_, rfl, fun _ => ⟨rfl, rfl, ?_, rfl⟩⟩
    · show (0 : Nat) < s.buffSizeBytes
      omega
    · cases hA : s.isA <;> simp [hA]
  · obtain ⟨s', heq, p1, p2⟩ := writeLoop_basic (bytes.length + 2)
      { s with numBytesStored := s.numBytesStored + bytes.length } bytes h1 h2 (by omega)
    have hbs := writeLoop_buffSize _ _ _ _ heq
    exact ⟨s', heq, p1, p2, hbs, fun h => absurd h hexact⟩

/-! ## Claim C8: the join-before-reuse discipline

The ghost trace records every join, launch and accumulator copy.  The
checker below replays a trace against the pending/not-pending state of the
three background slots (writer task A, writer task B, reader load thread)
and fails if new background work is launched on a slot — or a writer
accumulator is copied into — while that slot's previous work is unjoined. -/

/-- Pending-state transition of one event. -/
def evStep (st : Bool × Bool × Bool) : Ev → Bool × Bool × Bool
  | Ev.joinW a => if a then (false, st.2.1, st.2.2) else (st.1, false, st.2.2)
  | Ev.launchFlush a => if a then (true, st.2.1, st.2.2) else (st.1, true, st.2.2)
  | Ev.memcpyW _ => st
  | Ev.joinLoad => (st.1, st.2.1, false)
  | Ev.launchLoad _ => (st.1, st.2.1, true)

/-- Whether one event respects the discipline in the given pending state. -/
def evOk (st : Bool × Bool × Bool) : Ev → Bool
  | Ev.joinW _ => true
  | Ev.launchFlush a => if a then !st.1 else !st.2.1
  | Ev.memcpyW a => if a then !st.1 else !st.2.1
  | Ev.joinLoad => true
  | Ev.launchLoad _ => !st.2.2

/-- The discipline checker over a trace. -/
def chk : List Ev → (Bool × Bool × Bool) → Bool
  | [], _ => true
  | e :: t, st => evOk st e && chk t (evStep st e)

/-- The pending state after a trace. -/
def pend : List Ev → (Bool × Bool × Bool) → Bool × Bool × Bool
  | [], st => st
  | e :: t, st => pend t (evStep st e)

theorem chk_append :
    ∀ (t1 t2 : List Ev) (st : Bool × Bool × Bool),
      chk (t1 ++ t2) st = (chk t1 st && chk t2 (pend t1 st)) := by
  intro t1
  induction t1 with
  | nil => intro t2 st; simp [chk, pend]
  | cons e t ih =>
    intro t2 st
    show (evOk st e && chk (t ++ t2) (evStep st e))
        = ((evOk st e && chk t (evStep st e)) && chk t2 (pend t (evStep st e)))
    rw [ih, Bool.and_assoc]

theorem pend_append :
    ∀ (t1 t2 : List Ev) (st : Bool × Bool × Bool),
      pend (t1 ++ t2) st = pend t2 (pend t1 st) := by
  intro t1
  induction t1 with
  | nil => intro t2 st; simp [pend]
  | cons e t ih =>
    intro t2 st
    show pend (t ++ t2) (evStep st e) = pend t2 (pend t (evStep st e))
    exact ih t2 (evStep st e)

theorem chk_snoc (t : List Ev) (e : Ev) (st : Bool × Bool × Bool) :
    chk (t ++ [e]) st = (chk t st && evOk (pend t st) e) := by
  rw [chk_append]
  simp [chk]

theorem pend_snoc (t : List Ev) (e : Ev) (st : Bool × Bool × Bool) :
    pend (t ++ [e]) st = evStep (pend t st) e := by
  rw [pend_append]
  simp [pend]

/-- A writer state whose ghost trace respects the discipline and whose
pending state agrees with the two future-validity flags. -/
def WTr (s : Writer) : Prop :=
  chk s.trace (false, false, false) = true ∧
  pend s.trace (false, false, false) = (s.validA, s.validB, false)

/-- A reader state whose ghost trace respects the discipline and whose
pending state agrees with the joinability of the load thread. -/
def RTr (r : Reader) : Prop :=
  chk r.trace (false, false, false) = true ∧
  pend r.trace (false, false, false) = (false, false, r.threadJoinable)

theorem WTr_joinActive (s : Writer) (h : WTr s) :
    WTr s.joinActive ∧ (if s.isA then s.joinActive.validA else s.joinActive.validB) = false := by
  obtain ⟨h1, h2⟩ := h
  unfold Writer.joinActive
  by_cases hA : s.isA
  · rw [if_pos hA]
    by_cases hv : s.validA
    · rw [if_pos hv]
      refine ⟨⟨?_, ?_⟩, ?_⟩
      · rw [chk_snoc, h1]
        simp [evOk]
      · rw [pend_snoc, h2]
        simp [evStep]
      · simp [hA]
    · rw [if_neg hv]
      refine ⟨⟨h1, h2⟩, ?_⟩
      simp only [if_pos hA]
      simpa using hv
  · rw [if_neg hA]
    by_cases hv : s.validB
    · rw [if_pos hv]
      refine ⟨⟨?_, ?_⟩, ?_⟩
      · rw [chk_snoc, h1]
        simp [evOk]
      · rw [pend_snoc, h2]
        simp [evStep]
      · simp [hA]
    · rw [if_neg hv]
      refine ⟨⟨h1, h2⟩, ?_⟩
      simp only [if_neg hA]
      simpa using hv

/-- The `writeBytes` loop preserves the discipline invariant. -/
theorem writeLoop_WTr :
    ∀ (fuel : Nat) (s : Writer) (bytes : List Nat) (s' : Writer),
      WTr s → writeLoop fuel s bytes = some s' → WTr s' := by
  intro fuel
  induction fuel with
  | zero => intro s bytes s' _ h; simp [writeLoop] at h
  | succ fuel ih =>
    intro s bytes s' h heq
    rw [writeLoop] at heq
    by_cases hb : bytes.length = 0
    · rw [if_pos hb] at heq
      injection heq with heq
      rw [← heq]
      exact h
    · rw [if_neg hb] at heq
      dsimp only at heq
      obtain ⟨⟨hj1, hj2⟩, hact⟩ := WTr_joinActive s h
      have hA' : s.joinActive.isA = s.isA := joinActive_isA s
      have hokm : evOk (s.joinActive.validA, s.joinActive.validB, false)
          (Ev.memcpyW s.isA) = true := by
        cases hA : s.isA
        · rw [hA] at hact
          simp at hact
          simp [evOk, hact]
        · rw [hA] at hact
          simp at hact
          simp [evOk, hact]
      have hokl : evOk (s.joinActive.validA, s.joinActive.validB, false)
          (Ev.launchFlush s.isA) = true := by
        cases hA : s.isA
        · rw [hA] at hact
          simp at hact
          simp [evOk, hact]
        · rw [hA] at hact
          simp at hact
          simp [evOk, hact]
      have hmem : ∀ nw : Nat, WTr { s.joinActive with
          acc := s.joinActive.acc ++ bytes.take nw,
          next_ix := s.joinActive.next_ix + nw,
          trace := s.joinActive.trace ++ [Ev.memcpyW s.joinActive.isA] } := by
        intro nw
        constructor
        · rw [chk_snoc, hj1, hj2]
          simpa using hokm
        · rw [pend_snoc, hj2]
          simp [evStep]
      have hflush : ∀ (fl : List Nat), WTr
          { file := writeAt s.joinActive.file s.joinActive.put fl,
            put := s.joinActive.put + s.joinActive.buffSizeBytes,
            buffSizeBytes := s.joinActive.buffSizeBytes, acc := [],
            isA := !s.joinActive.isA, next_ix := 0,
            numBytesStored := s.joinActive.numBytesStored,
            validA := if s.joinActive.isA = true then true else s.joinActive.validA,
            validB := if s.joinActive.isA = true then s.joinActive.validB else true,
            began := s.joinActive.began,
            trace := s.joinActive.trace ++ [Ev.memcpyW s.joinActive.isA]
              ++ [Ev.launchFlush s.joinActive.isA] } := by
        intro fl
        constructor
        · rw [chk_snoc, chk_snoc, hj1, hj2]
          have hp : evStep (s.joinActive.validA, s.joinActive.validB, false)
              (Ev.memcpyW s.joinActive.isA) = (s.joinActive.validA, s.joinActive.validB, false) := by
            simp [evStep]
          rw [pend_snoc, hj2, hp]
          simp [hokm, hokl]
        · rw [pend_snoc, pend_snoc, hj2]
          cases hA : s.joinActive.isA <;> simp [evStep, hA]
      split at heq
      all_goals split at heq
      all_goals
        first
          | (injection heq with heq
             rw [← heq]
             exact hmem _)
          | exact ih _ _ _ (hflush _) heq

/-- `fetchIntoBuff_thrd` joins the load thread before any launch, so it
preserves the discipline invariant. -/
theorem RTr_joinLoadThread (r : Reader) (h : RTr r) :
    RTr r.joinLoadThread ∧ r.joinLoadThread.threadJoinable = false := by
  obtain ⟨h1, h2⟩ := h
  unfold Reader.joinLoadThread
  by_cases hj : r.threadJoinable
  · rw [if_pos hj]
    refine ⟨⟨?_, ?_⟩, rfl⟩
    · rw [chk_snoc, h1]
      simp [evOk]
    · rw [pend_snoc, h2]
      simp [evStep]
  · rw [if_neg hj]
    simp only [Bool.not_eq_true] at hj
    exact ⟨⟨h1, h2⟩, hj⟩

theorem RTr_loadBody (r : Reader) (intoA : Bool) (h : RTr r)
    (hj : r.threadJoinable = false) : RTr (r.loadBody intoA) := by
  obtain ⟨h1, h2⟩ := h
  rw [hj] at h2
  unfold Reader.loadBody
  constructor
  · simp only [Reader.setBuff]
    split <;>
      (dsimp only
       rw [chk_snoc, h1, h2]
       simp [evOk])
  · simp only [Reader.setBuff]
    split <;>
      (dsimp only
       rw [pend_snoc, h2]
       simp [evStep])

theorem fetch_RTr (r : Reader) (intoA : Bool) (h : RTr r) :
    RTr (r.fetchIntoBuff_thrd intoA) := by
  obtain ⟨hjr, hjflag⟩ := RTr_joinLoadThread r h
  unfold Reader.fetchIntoBuff_thrd
  dsimp only
  split
  · exact hjr
  · exact RTr_loadBody _ intoA hjr hjflag

/-- `focus_next_buffer` appends no events and does not touch the load
thread, so it preserves the discipline invariant. -/
theorem RTr_focus (r : Reader) (h : RTr r) : RTr r.focus_next_buffer := by
  obtain ⟨h1, h2⟩ := h
  unfold Reader.focus_next_buffer
  split
  · exact ⟨h1, h2⟩
  · exact ⟨h1, h2⟩

/-- `read_rawData`'s loop only touches the trace through
`fetchIntoBuff_thrd` (`focus_next_buffer` appends nothing), so it preserves
the discipline invariant. -/
theorem readLoop_RTr :
    ∀ (fuel : Nat) (r : Reader) (numBytes : Nat) (acc out : List Nat) (r' : Reader),
      RTr r → readLoop fuel r numBytes acc = some (out, r') → RTr r' := by
  intro fuel
  induction fuel with
  | zero => intro r numBytes acc out r' _ h; simp [readLoop] at h
  | succ fuel ih =>
    intro r numBytes acc out r' h heq
    rw [readLoop] at heq
    by_cases hz : numBytes = 0
    · rw [if_pos hz] at heq
      injection heq with heq
      injection heq with heq1 heq2
      rw [← heq2]
      exact h
    · rw [if_neg hz] at heq
      dsimp only at heq
      refine ih _ _ _ _ _ ?_ heq
      have hset : ∀ n : Nat, RTr (r.setBuff r.isA ((r.get_currBuff).skipBytes n)) := by
        intro n
        obtain ⟨h1, h2⟩ := h
        simp only [Reader.setBuff]
        split <;> exact ⟨h1, h2⟩
      split
      all_goals try split
      all_goals
        first
          | exact RTr_focus _ (fetch_RTr _ _ (hset _))
          | exact hset _

instance (s : Writer) : Decidable (WTr s) := by
  unfold WTr; infer_instance

instance (r : Reader) : Decidable (RTr r) := by
  unfold RTr; infer_instance

/-- A concrete opened reader used by witnesses: chunk size 4 over a 7-byte
file (the fallback state is never reached). -/
def r7 : Reader :=
  match BeginRead [1, 2, 3, 4, 5, 6, 7] 4 with
  | .ok r => r
  | .error _ => ⟨[], 0, false, 0, 0, 0, 0, 0, true, ⟨[], 0, 0⟩, ⟨[], 0, 0⟩, false, 0, []⟩

/-- C8: neither reader nor writer starts new background work on a buffer
without first joining that buffer's previous handle.  Formally: the ghost
trace of every state reachable by the `writeBytes` loop, by
`fetchIntoBuff_thrd`, or by the `read_rawData` loop from a
discipline-respecting state passes the checker `chk` (which rejects any
flush launch or accumulator copy on a buffer with an unjoined flush, and
any load launch while the single load thread is unjoined), and the pending
state stays in agreement with the future-validity / thread-joinable
flags. -/
theorem c8_join_before_new_background_work :
    (∀ (fuel : Nat) (s : Writer) (bytes : List Nat) (s' : Writer),
       WTr s → writeLoop fuel s bytes = some s' → WTr s') ∧
    (∀ (r : Reader) (intoA : Bool), RTr r → RTr (r.fetchIntoBuff_thrd intoA)) ∧
    (∀ (fuel numBytes : Nat) (r r' : Reader) (acc out : List Nat),
       RTr r → readLoop fuel r numBytes acc = some (out, r') → RTr r') :=
  ⟨writeLoop_WTr, fetch_RTr,
   fun fuel numBytes r r' acc out h heq => readLoop_RTr fuel r numBytes acc out r' h heq⟩

/-- Witness for `c8_join_before_new_background_work` at concrete writer and
reader runs. -/
theorem c8_join_before_new_background_work_witness :
    WTr (beginWrite 0 4) ∧ RTr r7 ∧
    WTr ((writeLoop 7 (beginWrite 0 4) [1, 2, 3, 4, 5]).getD (beginWrite 0 4)) ∧
    RTr (r7.fetchIntoBuff_thrd true) ∧
    RTr ((readLoop 8 r7 3 []).getD ([], r7)).2 :=
  ⟨by decide, by decide,
   c8_join_before_new_background_work.1 7 (beginWrite 0 4) [1, 2, 3, 4, 5] _ (by decide) rfl,
   c8_join_before_new_background_work.2.1 r7 true (by decide),
   c8_join_before_new_background_work.2.2 8 3 r7 _ [] _ (by decide) rfl⟩

/-! ## Reader correctness: structural lemmas -/

@[simp] theorem setBuff_file (s : Reader) (c : Bool) (b : RawData_Buff) :
    (s.setBuff c b).file = s.file := by
  unfold Reader.setBuff; split <;> rfl

@[simp] theorem setBuff_pos (s : Reader) (c : Bool) (b : RawData_Buff) :
    (s.setBuff c b).pos = s.pos := by
  unfold Reader.setBuff; split <;> rfl

@[simp] theorem setBuff_fileFail (s : Reader) (c : Bool) (b : RawData_Buff) :
    (s.setBuff c b).fileFail = s.fileFail := by
  unfold Reader.setBuff; split <;> rfl

@[simp] theorem setBuff_numChunks (s : Reader) (c : Bool) (b : RawData_Buff) :
    (s.setBuff c b).numChunks = s.numChunks := by
  unfold Reader.setBuff; split <;> rfl

@[simp] theorem setBuff_chunkSize (s : Reader) (c : Bool) (b : RawData_Buff) :
    (s.setBuff c b).chunkSize = s.chunkSize := by
  unfold Reader.setBuff; split <;> rfl

@[simp] theorem setBuff_lastChunkSize (s : Reader) (c : Bool) (b : RawData_Buff) :
    (s.setBuff c b).lastChunkSize = s.lastChunkSize := by
  unfold Reader.setBuff; split <;> rfl

@[simp] theorem setBuff_readingChunk_id (s : Reader) (c : Bool) (b : RawData_Buff) :
    (s.setBuff c b).readingChunk_id = s.readingChunk_id := by
  unfold Reader.setBuff; split <;> rfl

@[simp] theorem setBuff_isA (s : Reader) (c : Bool) (b : RawData_Buff) :
    (s.setBuff c b).isA = s.isA := by
  unfold Reader.setBuff; split <;> rfl

@[simp] theorem setBuff_threadJoinable (s : Reader) (c : Bool) (b : RawData_Buff) :
    (s.setBuff c b).threadJoinable = s.threadJoinable := by
  unfold Reader.setBuff; split <;> rfl

@[simp] theorem get_currBuff_setBuff_self (s : Reader) (b : RawData_Buff) :
    (s.setBuff s.isA b).get_currBuff = b := by
  unfold Reader.setBuff Reader.get_currBuff
  cases hA : s.isA <;> simp [hA]

@[simp] theorem get_othBuff_setBuff_self (s : Reader) (b : RawData_Buff) :
    (s.setBuff s.isA b).get_othBuff = s.get_othBuff := by
  unfold Reader.setBuff Reader.get_othBuff
  cases hA : s.isA <;> simp [hA]

@[simp] theorem joinLoadThread_file (s : Reader) : s.joinLoadThread.file = s.file := by
  unfold Reader.joinLoadThread; split <;> rfl

@[simp] theorem joinLoadThread_pos (s : Reader) : s.joinLoadThread.pos = s.pos := by
  unfold Reader.joinLoadThread; split <;> rfl

@[simp] theorem joinLoadThread_fileFail (s : Reader) :
    s.joinLoadThread.fileFail = s.fileFail := by
  unfold Reader.joinLoadThread; split <;> rfl

@[simp] theorem joinLoadThread_numChunks (s : Reader) :
    s.joinLoadThread.numChunks = s.numChunks := by
  unfold Reader.joinLoadThread; split <;> rfl

@[simp] theorem joinLoadThread_chunkSize (s : Reader) :
    s.joinLoadThread.chunkSize = s.chunkSize := by
  unfold Reader.joinLoadThread; split <;> rfl

@[simp] theorem joinLoadThread_lastChunkSize (s : Reader) :
    s.joinLoadThread.lastChunkSize = s.lastChunkSize := by
  unfold Reader.joinLoadThread; split <;> rfl

@[simp] theorem joinLoadThread_readingChunk_id (s : Reader) :
    s.joinLoadThread.readingChunk_id = s.readingChunk_id := by
  unfold Reader.joinLoadThread; split <;> rfl

@[simp] theorem joinLoadThread_isA (s : Reader) : s.joinLoadThread.isA = s.isA := by
  unfold Reader.joinLoadThread; split <;> rfl

@[simp] theorem joinLoadThread_buff_a (s : Reader) :
    s.joinLoadThread.buff_a = s.buff_a := by
  unfold Reader.joinLoadThread; split <;> rfl

@[simp] theorem joinLoadThread_buff_b (s : Reader) :
    s.joinLoadThread.buff_b = s.buff_b := by
  unfold Reader.joinLoadThread; split <;> rfl

@[simp] theorem joinLoadThread_currBuff (s : Reader) :
    s.joinLoadThread.get_currBuff = s.get_currBuff := by
  unfold Reader.get_currBuff
  simp

@[simp] theorem joinLoadThread_othBuff (s : Reader) :
    s.joinLoadThread.get_othBuff = s.get_othBuff := by
  unfold Reader.get_othBuff
  simp

/-! ## Reader correctness: chunk geometry -/

/-- `_numChunks` as computed by `BeginRead` for file size `S`, chunk size `C`. -/
def nChunks (S C : Nat) : Nat := if 0 < S % C then S / C + 1 else S / C

/-- `_lastChunkSize` as computed by `BeginRead`. -/
def lastSz (S C : Nat) : Nat := if 0 < S % C then S % C else C

/-- The byte count each chunk load requests (and records as apparent size):
`lastSz` when the whole file is a single chunk, the full chunk size
otherwise — every load of a multi-chunk file computes `isLastChunk` from a
chunk id that lags the chunk being loaded, so it always requests `C`. -/
def reqS (S C : Nat) : Nat := if nChunks S C = 1 then lastSz S C else C

/-- Number of truly valid (from-file) bytes at the front of the buffer
holding chunk `k`. -/
def validLen (S C k : Nat) : Nat := min (reqS S C) (S - k * C)

theorem geom_facts (S C : Nat) (hC : 0 < C) (hS : 0 < S) :
    0 < nChunks S C ∧ 0 < lastSz S C ∧ lastSz S C ≤ C ∧
    (nChunks S C - 1) * C + lastSz S C = S := by
  have hdm := Nat.div_add_mod S C
  unfold nChunks lastSz
  by_cases hr : 0 < S % C
  · rw [if_pos hr, if_pos hr]
    refine ⟨Nat.succ_pos _, hr, le_of_lt (Nat.mod_lt _ hC), ?_⟩
    simp only [Nat.add_sub_cancel]
    have hcomm : (S / C) * C = C * (S / C) := Nat.mul_comm _ _
    omega
  · rw [if_neg hr, if_neg hr]
    have hr0 : S % C = 0 := by omega
    have hq : 0 < S / C := by
      rcases Nat.eq_zero_or_pos (S / C) with h | h
      · rw [h] at hdm; omega
      · exact h
    refine ⟨hq, hC, le_refl C, ?_⟩
    obtain ⟨q, hq'⟩ : ∃ q, S / C = q + 1 := ⟨S / C - 1, by omega⟩
    rw [hq'] at hdm ⊢
    simp only [Nat.add_sub_cancel]
    have h2 : C * (q + 1) = C * q + C := by ring
    have h3 : q * C = C * q := Nat.mul_comm q C
    omega

/-! ## Reader correctness: the mid-read invariant -/

/-- Invariant of the reader while it is consuming chunk `k` of file `F`
with chunk size `C`: the geometry fields are as `BeginRead` computed them,
the active buffer holds chunk `k` (valid prefix of length `validLen`), and
— unless chunk `k` is the last — the other buffer already holds chunk
`k + 1` with the stream position and fail flag accounting for the loads
performed so far. -/
structure ReadInv (F : List Nat) (C : Nat) (s : Reader) (k : Nat) : Prop where
  hfile : s.file = F
  hn : s.numChunks = nChunks F.length C
  hcs : s.chunkSize = C
  hls : s.lastChunkSize = lastSz F.length C
  hid : s.readingChunk_id = k
  hk : k < nChunks F.length C
  hsize : (s.get_currBuff).size = reqS F.length C
  hlenc : (s.get_currBuff).contents.length = C
  hleno : (s.get_othBuff).contents.length = C
  hix : (s.get_currBuff).currIx < (s.get_currBuff).size
  hval : (s.get_currBuff).contents.take (validLen F.length C k)
       = (F.drop (k * C)).take (validLen F.length C k)
  hoth : k + 1 < nChunks F.length C →
    (s.get_othBuff).size = C ∧ (s.get_othBuff).currIx = 0 ∧
    (s.get_othBuff).contents.take (validLen F.length C (k + 1))
      = (F.drop ((k + 1) * C)).take (validLen F.length C (k + 1)) ∧
    s.pos = min F.length ((k + 2) * C) ∧
    s.fileFail = decide (F.length < (k + 2) * C)

@[simp] theorem setBuff_trace (s : Reader) (c : Bool) (b : RawData_Buff) :
    (s.setBuff c b).trace = s.trace := by
  unfold Reader.setBuff; split <;> rfl

@[simp] theorem setBuff_swaps (s : Reader) (c : Bool) (b : RawData_Buff) :
    (s.setBuff c b).swaps = s.swaps := by
  unfold Reader.setBuff; split <;> rfl

/-- `loadBody` when the launch-time chunk id is not the last chunk's: the
thread requests a full `_chunkSize` read. -/
theorem loadBody_spec_notLast (s : Reader) (intoA : Bool)
    (h : ¬ s.readingChunk_id = s.numChunks - 1) :
    s.loadBody intoA =
      { s.setBuff intoA
          ⟨(s.file.drop s.pos).take (fileRead s.file s.pos s.fileFail s.chunkSize).1
             ++ (if intoA then s.buff_a else s.buff_b).contents.drop
                  (fileRead s.file s.pos s.fileFail s.chunkSize).1,
            s.chunkSize, 0⟩ with
        pos := (fileRead s.file s.pos s.fileFail s.chunkSize).2.1,
        fileFail := (fileRead s.file s.pos s.fileFail s.chunkSize).2.2,
        threadJoinable := true,
        trace := s.trace ++ [Ev.launchLoad intoA] } := by
  unfold Reader.loadBody Reader.setBuff
  rw [decide_eq_false h]
  cases intoA <;> rfl

/-- `loadBody` when the launch-time chunk id equals the last chunk's: the
thread requests only `_lastChunkSize` bytes. -/
theorem loadBody_spec_last (s : Reader) (intoA : Bool)
    (h : s.readingChunk_id = s.numChunks - 1) :
    s.loadBody intoA =
      { s.setBuff intoA
          ⟨(s.file.drop s.pos).take (fileRead s.file s.pos s.fileFail s.lastChunkSize).1
             ++ (if intoA then s.buff_a else s.buff_b).contents.drop
                  (fileRead s.file s.pos s.fileFail s.lastChunkSize).1,
            s.lastChunkSize, 0⟩ with
        pos := (fileRead s.file s.pos s.fileFail s.lastChunkSize).2.1,
        fileFail := (fileRead s.file s.pos s.fileFail s.lastChunkSize).2.2,
        threadJoinable := true,
        trace := s.trace ++ [Ev.launchLoad intoA] } := by
  unfold Reader.loadBody Reader.setBuff
  rw [decide_eq_true_eq.mpr h]
  cases intoA <;> rfl

/-- Taking a sub-slice of two lists that agree on a prefix. -/
theorem sliceEq (l1 l2 : List Nat) (v i n : Nat) (h : l1.take v = l2.take v)
    (hin : i + n ≤ v) : (l1.drop i).take n = (l2.drop i).take n := by
  have h1 : ((l1.take v).drop i).take n = ((l2.take v).drop i).take n := by rw [h]
  rw [List.drop_take, List.drop_take, List.take_take, List.take_take,
      Nat.min_eq_left (by omega)] at h1
  exact h1

theorem get_currBuff_toggle (s : Reader) (i w : Nat) :
    (({ s with isA := !s.isA, readingChunk_id := i, swaps := w } : Reader)).get_currBuff
      = s.get_othBuff := by
  unfold Reader.get_currBuff Reader.get_othBuff
  cases hA : s.isA <;> simp [hA]

theorem get_othBuff_toggle (s : Reader) (i w : Nat) :
    (({ s with isA := !s.isA, readingChunk_id := i, swaps := w } : Reader)).get_othBuff
      = s.get_currBuff := by
  unfold Reader.get_currBuff Reader.get_othBuff
  cases hA : s.isA <;> simp [hA]

theorem get_currBuff_override (x : Reader) (p : Nat) (ff tj : Bool) (tr : List Ev) :
    ({ x with pos := p, fileFail := ff, threadJoinable := tj, trace := tr } : Reader).get_currBuff
      = x.get_currBuff := rfl

theorem get_othBuff_override (x : Reader) (p : Nat) (ff tj : Bool) (tr : List Ev) :
    ({ x with pos := p, fileFail := ff, threadJoinable := tj, trace := tr } : Reader).get_othBuff
      = x.get_othBuff := rfl

theorem get_currBuff_setBuff_eq (s : Reader) (c : Bool) (b : RawData_Buff)
    (h : c = s.isA) : (s.setBuff c b).get_currBuff = b := by
  subst h; exact get_currBuff_setBuff_self s b

theorem get_othBuff_setBuff_eq (s : Reader) (c : Bool) (b : RawData_Buff)
    (h : c = s.isA) : (s.setBuff c b).get_othBuff = s.get_othBuff := by
  subst h; exact get_othBuff_setBuff_self s b

theorem fileRead_fst_le (file : List Nat) (p : Nat) (fl : Bool) (req : Nat) :
    (fileRead file p fl req).1 ≤ req := by
  unfold fileRead
  cases fl
  · simp
  · simp

theorem length_fileRead_loaded (file : List Nat) (p : Nat) (fl : Bool) (req : Nat) :
    ((file.drop p).take (fileRead file p fl req).1).length = (fileRead file p fl req).1 := by
  unfold fileRead
  cases fl
  · simp only [Bool.false_eq_true, if_false]
    simp [List.length_take, List.length_drop]
  · simp

/-- The buffer swap performed inside `read_rawData` when the active buffer
is exhausted mid-stream (on chunk `k` with chunk `k + 1` not the last...
more precisely with `k + 1 < numChunks`): the fetch launches a load into
the just-finished buffer and the focus step toggles roles, re-establishing
the invariant at chunk `k + 1` with the new active cursor at 0. -/
theorem swap_step (F : List Nat) (C : Nat) (hC : 0 < C) (hS : 0 < F.length)
    (s : Reader) (k : Nat)
    (hfile : s.file = F) (hn : s.numChunks = nChunks F.length C)
    (hcs : s.chunkSize = C) (hls : s.lastChunkSize = lastSz F.length C)
    (hid : s.readingChunk_id = k) (hk1 : k + 1 < nChunks F.length C)
    (hlenc : (s.get_currBuff).contents.length = C)
    (hleno : (s.get_othBuff).contents.length = C)
    (ho1 : (s.get_othBuff).size = C) (ho2 : (s.get_othBuff).currIx = 0)
    (ho3 : (s.get_othBuff).contents.take (validLen F.length C (k + 1))
        = (F.drop ((k + 1) * C)).take (validLen F.length C (k + 1)))
    (ho4 : s.pos = min F.length ((k + 2) * C))
    (ho5 : s.fileFail = decide (F.length < (k + 2) * C)) :
    ReadInv F C ((s.fetchIntoBuff_thrd s.isA).focus_next_buffer) (k + 1) ∧
    (((s.fetchIntoBuff_thrd s.isA).focus_next_buffer).get_currBuff).currIx = 0 := by
  obtain ⟨hn0, hl0, hlC, hgeom⟩ := geom_facts F.length C hC hS
  have hmul1 : (k + 1) * C = k * C + C := by ring
  have hmul2 : (k + 2) * C = (k + 1) * C + C := by ring
  have hmul3 : (k + 3) * C = (k + 2) * C + C := by ring
  have hn2 : 2 ≤ nChunks F.length C := by omega
  have hreq : reqS F.length C = C := by
    unfold reqS
    rw [if_neg (by omega)]
  have hk1le : (k + 1) * C ≤ (nChunks F.length C - 1) * C :=
    Nat.mul_le_mul_right C (by omega)
  have hltS : (nChunks F.length C - 1) * C < F.length := by omega
  have hguard : ¬ ((s.joinLoadThread).numChunks ≤ (s.joinLoadThread).readingChunk_id) := by
    simp only [joinLoadThread_numChunks, joinLoadThread_readingChunk_id, hn, hid]
    omega
  have hfetch : s.fetchIntoBuff_thrd s.isA = (s.joinLoadThread).loadBody s.isA := by
    unfold Reader.fetchIntoBuff_thrd
    dsimp only
    rw [if_neg hguard]
  have hnl : ¬ ((s.joinLoadThread).readingChunk_id = (s.joinLoadThread).numChunks - 1) := by
    simp only [joinLoadThread_numChunks, joinLoadThread_readingChunk_id, hn, hid]
    omega
  -- projections of the state after the fetch
  have e_file : (s.fetchIntoBuff_thrd s.isA).file = F := by
    rw [hfetch, loadBody_spec_notLast _ _ hnl]
    simp [hfile]
  have e_n : (s.fetchIntoBuff_thrd s.isA).numChunks = nChunks F.length C := by
    rw [hfetch, loadBody_spec_notLast _ _ hnl]
    simp [hn]
  have e_cs : (s.fetchIntoBuff_thrd s.isA).chunkSize = C := by
    rw [hfetch, loadBody_spec_notLast _ _ hnl]
    simp [hcs]
  have e_ls : (s.fetchIntoBuff_thrd s.isA).lastChunkSize = lastSz F.length C := by
    rw [hfetch, loadBody_spec_notLast _ _ hnl]
    simp [hls]
  have e_id : (s.fetchIntoBuff_thrd s.isA).readingChunk_id = k := by
    rw [hfetch, loadBody_spec_notLast _ _ hnl]
    simp [hid]
  have e_pos : (s.fetchIntoBuff_thrd s.isA).pos
      = (fileRead F s.pos s.fileFail C).2.1 := by
    rw [hfetch, loadBody_spec_notLast _ _ hnl]
    simp [hfile, hcs]
  have e_fl : (s.fetchIntoBuff_thrd s.isA).fileFail
      = (fileRead F s.pos s.fileFail C).2.2 := by
    rw [hfetch, loadBody_spec_notLast _ _ hnl]
    simp [hfile, hcs]
  have e_oth : (s.fetchIntoBuff_thrd s.isA).get_othBuff = s.get_othBuff := by
    rw [hfetch, loadBody_spec_notLast _ _ hnl]
    rw [get_othBuff_override, get_othBuff_setBuff_eq _ _ _ (by simp)]
    simp
  have e_cur : (s.fetchIntoBuff_thrd s.isA).get_currBuff
      = ⟨(F.drop s.pos).take (fileRead F s.pos s.fileFail C).1
           ++ (s.get_currBuff).contents.drop (fileRead F s.pos s.fileFail C).1,
         C, 0⟩ := by
    rw [hfetch, loadBody_spec_notLast _ _ hnl]
    rw [get_currBuff_override, get_currBuff_setBuff_eq _ _ _ (by simp)]
    simp only [joinLoadThread_file, joinLoadThread_pos, joinLoadThread_fileFail,
      joinLoadThread_chunkSize, joinLoadThread_buff_a, joinLoadThread_buff_b]
    rw [hfile, hcs]
    rw [show (if s.isA = true then s.buff_a else s.buff_b) = s.get_currBuff from rfl]
  -- the focus step toggles
  have hmoreR : (s.fetchIntoBuff_thrd s.isA).HasMoreForRead = true := by
    unfold Reader.HasMoreForRead
    rw [e_n, e_id]
    rw [if_neg (by omega), decide_eq_false (by omega)]
    simp
  have hfocus : (s.fetchIntoBuff_thrd s.isA).focus_next_buffer
      = { s.fetchIntoBuff_thrd s.isA with
            isA := !(s.fetchIntoBuff_thrd s.isA).isA,
            readingChunk_id := (s.fetchIntoBuff_thrd s.isA).readingChunk_id + 1,
            swaps := (s.fetchIntoBuff_thrd s.isA).swaps + 1 } := by
    unfold Reader.focus_next_buffer
    rw [if_neg (by simp [hmoreR])]
  rw [hfocus]
  constructor
  · refine ⟨?_, ?_, ?_, ?_, ?_, hk1, ?_, ?_, ?_, ?_, ?_, ?_⟩
    · show (s.fetchIntoBuff_thrd s.isA).file = F
      exact e_file
    · show (s.fetchIntoBuff_thrd s.isA).numChunks = nChunks F.length C
      exact e_n
    · show (s.fetchIntoBuff_thrd s.isA).chunkSize = C
      exact e_cs
    · show (s.fetchIntoBuff_thrd s.isA).lastChunkSize = lastSz F.length C
      exact e_ls
    · show (s.fetchIntoBuff_thrd s.isA).readingChunk_id + 1 = k + 1
      rw [e_id]
    · rw [get_currBuff_toggle, e_oth, ho1, hreq]
    · rw [get_currBuff_toggle, e_oth]
      exact hleno
    · rw [get_othBuff_toggle, e_cur]
      have h1 := length_fileRead_loaded F s.pos s.fileFail C
      have h2 := fileRead_fst_le F s.pos s.fileFail C
      simp only [List.length_append, List.length_drop, h1, hlenc]
      omega
    · rw [get_currBuff_toggle, e_oth, ho1, ho2]
      omega
    · rw [get_currBuff_toggle, e_oth]
      exact ho3
    · intro hk2
      have hk2le : (k + 2) * C ≤ (nChunks F.length C - 1) * C :=
        Nat.mul_le_mul_right C (by omega)
      have hposlt : (k + 2) * C < F.length := by omega
      have hposval : s.pos = (k + 2) * C := by
        rw [ho4]
        omega
      have hflval : s.fileFail = false := by
        rw [ho5]
        simp only [decide_eq_false_iff_not]
        omega
      have hrr : fileRead F s.pos s.fileFail C
          = (min C (F.length - (k + 2) * C),
             (k + 2) * C + min C (F.length - (k + 2) * C),
             decide (min C (F.length - (k + 2) * C) < C)) := by
        rw [hposval, hflval]
        unfold fileRead
        simp
      have hvl2 : validLen F.length C (k + 1 + 1) = min C (F.length - (k + 2) * C) := by
        unfold validLen
        rw [hreq]
      refine ⟨?_, ?_, ?_, ?_, ?_⟩
      · rw [get_othBuff_toggle, e_cur]
      · rw [get_othBuff_toggle, e_cur]
      · rw [get_othBuff_toggle, e_cur]
        have hlen : ((F.drop s.pos).take (fileRead F s.pos s.fileFail C).1).length
            = (fileRead F s.pos s.fileFail C).1 := length_fileRead_loaded F s.pos s.fileFail C
        show (((F.drop s.pos).take (fileRead F s.pos s.fileFail C).1
             ++ (s.get_currBuff).contents.drop (fileRead F s.pos s.fileFail C).1).take
               (validLen F.length C (k + 1 + 1)))
          = (F.drop ((k + 1 + 1) * C)).take (validLen F.length C (k + 1 + 1))
        have h12 : k + 1 + 1 = k + 2 := by ring
        rw [hvl2, hrr, h12, hposval]
        dsimp only
        rw [List.take_left' (by simp only [List.length_take, List.length_drop]; omega)]
      · show (s.fetchIntoBuff_thrd s.isA).pos = min F.length ((k + 1 + 2) * C)
        rw [e_pos, hrr]
        dsimp only
        have h13 : (k + 1 + 2) * C = (k + 3) * C := by ring
        rw [h13]
        omega
      · show (s.fetchIntoBuff_thrd s.isA).fileFail = decide (F.length < (k + 1 + 2) * C)
        rw [e_fl, hrr]
        dsimp only
        have h13 : (k + 1 + 2) * C = (k + 3) * C := by ring
        rw [h13]
        simp only [decide_eq_decide]
        omega
  · rw [get_currBuff_toggle, e_oth]
    exact ho2

/-- The `read_rawData` loop delivers exactly the file's bytes from the
current stream position, for any request that stays within the file, from
any state satisfying the mid-read invariant. -/
theorem readLoop_ok (F : List Nat) (C : Nat) (hC : 0 < C) (hS : 0 < F.length) :
    ∀ (fuel numBytes : Nat) (s : Reader) (k : Nat) (acc : List Nat),
      ReadInv F C s k → numBytes < fuel →
      k * C + (s.get_currBuff).currIx + numBytes ≤ F.length →
      ∃ s', readLoop fuel s numBytes acc =
        some (acc ++ (F.drop (k * C + (s.get_currBuff).currIx)).take numBytes, s') := by
  intro fuel
  induction fuel with
  | zero => intro numBytes s k acc _ h _; omega
  | succ fuel ih =>
    intro numBytes s k acc hinv hfuel hbound
    obtain ⟨hfile, hn, hcs, hls, hid, hk, hsize, hlenc, hleno, hix, hval, hoth⟩ := hinv
    by_cases hz : numBytes = 0
    · subst hz
      refine ⟨s, ?_⟩
      rw [readLoop]
      simp
    · rw [readLoop, if_neg hz]
      dsimp only
      obtain ⟨hn0, hl0, hlC, hgeom⟩ := geom_facts F.length C hC hS
      have hreqpos : 0 < reqS F.length C := by
        unfold reqS
        split
        · exact hl0
        · exact hC
      have hreqleC : reqS F.length C ≤ C := by
        unfold reqS
        split
        · exact hlC
        · exact le_refl C
      have hkle : k * C ≤ (nChunks F.length C - 1) * C :=
        Nat.mul_le_mul_right C (by omega)
      have hltS : (nChunks F.length C - 1) * C < F.length := by omega
      set ix := (s.get_currBuff).currIx with hixdef
      have hixlt : ix < reqS F.length C := by
        rw [hixdef, ← hsize]
        exact hix
      have hbrval : (s.get_currBuff).remaining = reqS F.length C - ix := by
        unfold RawData_Buff.remaining
        rw [hsize, hixdef]
      rw [hbrval]
      set numCopy := if reqS F.length C - ix < numBytes then reqS F.length C - ix
                     else numBytes with hncdef
      have hout : (((s.get_currBuff).contents.drop ix).take numCopy)
          = (F.drop (k * C + ix)).take numCopy := by
        have hin : ix + numCopy ≤ validLen F.length C k := by
          unfold validLen
          rw [hncdef]
          split
          · omega
          · -- numCopy = numBytes: within apparent size, and within the file
            have h1 : k * C + ix + numBytes ≤ F.length := hbound
            omega
        have h2 := sliceEq (s.get_currBuff).contents (F.drop (k * C))
          (validLen F.length C k) ix numCopy hval hin
        rw [h2, List.drop_drop]
      by_cases hcase : reqS F.length C - ix < numBytes
      · -- the request exceeds the active buffer: copy the rest and swap
        rw [if_pos hcase] at hncdef
        have hnc : numCopy = reqS F.length C - ix := hncdef
        have hend : (((s.get_currBuff).skipBytes numCopy)).endReached = true := by
          unfold RawData_Buff.skipBytes RawData_Buff.endReached
          simp only [decide_eq_true_eq]
          rw [hsize]
          omega
        rw [if_pos hend]
        -- chunk k cannot be the last one here
        have hk1 : k + 1 < nChunks F.length C := by
          by_cases hn1 : nChunks F.length C = 1
          · exfalso
            have hreq1 : reqS F.length C = lastSz F.length C := by
              unfold reqS
              rw [if_pos hn1]
            have hz1 : (nChunks F.length C - 1) * C = 0 := by
              rw [hn1]
              ring
            have hk0 : k = 0 := by omega
            rw [hk0] at hbound
            simp only [Nat.zero_mul, Nat.zero_add] at hbound
            omega
          · by_contra hk1n
            have hkn1 : k = nChunks F.length C - 1 := by omega
            have hkeq : k * C = (nChunks F.length C - 1) * C := by rw [hkn1]
            have hreqC : reqS F.length C = C := by
              unfold reqS
              rw [if_neg hn1]
            omega
        have hn2 : 2 ≤ nChunks F.length C := by omega
        have hreqC : reqS F.length C = C := by
          unfold reqS
          rw [if_neg (by omega)]
        set s1 := s.setBuff s.isA ((s.get_currBuff).skipBytes numCopy) with hs1def
        have hoth' := hoth hk1
        have hswap := swap_step F C hC hS s1 k
          (by rw [hs1def]; simp [hfile])
          (by rw [hs1def]; simp [hn])
          (by rw [hs1def]; simp [hcs])
          (by rw [hs1def]; simp [hls])
          (by rw [hs1def]; simp [hid])
          hk1
          (by rw [hs1def]
              simp only [setBuff_isA, get_currBuff_setBuff_self]
              unfold RawData_Buff.skipBytes
              exact hlenc)
          (by rw [hs1def]
              simp only [setBuff_isA, get_othBuff_setBuff_self]
              exact hleno)
          (by rw [hs1def]
              simp only [setBuff_isA, get_othBuff_setBuff_self]
              exact hoth'.1)
          (by rw [hs1def]
              simp only [setBuff_isA, get_othBuff_setBuff_self]
              exact hoth'.2.1)
          (by rw [hs1def]
              simp only [setBuff_isA, get_othBuff_setBuff_self]
              exact hoth'.2.2.1)
          (by rw [hs1def]
              simp only [setBuff_pos]
              exact hoth'.2.2.2.1)
          (by rw [hs1def]
              simp only [setBuff_fileFail]
              exact hoth'.2.2.2.2)
        set s2 := (s1.fetchIntoBuff_thrd s1.isA).focus_next_buffer with hs2def
        obtain ⟨hinv2, hcur0⟩ := hswap
        have htarget : acc ++ (F.drop (k * C + ix)).take numBytes
            = (acc ++ (F.drop (k * C + ix)).take numCopy)
              ++ (F.drop ((k + 1) * C + (s2.get_currBuff).currIx)).take (numBytes - numCopy) := by
          rw [hcur0, Nat.add_zero, List.append_assoc]
          have hsum : numBytes = numCopy + (numBytes - numCopy) := by omega
          have hstep : (k + 1) * C = (k * C + ix) + numCopy := by
            rw [hnc]
            have : (k + 1) * C = k * C + C := by ring
            omega
          rw [hstep]
          nth_rewrite 1 [hsum]
          rw [List.take_add, List.drop_drop]
        rw [← hout] at htarget
        rw [htarget]
        refine ih (numBytes - numCopy) s2 (k + 1) _ hinv2 (by omega) ?_
        rw [hcur0, Nat.add_zero]
        have hstep : (k + 1) * C = k * C + C := by ring
        omega
      · -- the request fits in the active buffer: one copy, then done
        rw [if_neg hcase] at hncdef
        have hnc : numCopy = numBytes := hncdef
        obtain ⟨f', hf'⟩ : ∃ f', fuel = f' + 1 := ⟨fuel - 1, by omega⟩
        rw [show numBytes - numCopy = 0 from by omega, hf', readLoop, if_pos rfl,
          hout, hnc]
        exact ⟨_, rfl⟩

/-- `BeginRead` on a non-empty file succeeds and establishes the mid-read
invariant at chunk 0 with the active cursor at 0. -/
theorem BeginRead_ok (F : List Nat) (C : Nat) (hC : 0 < C) (hS : 0 < F.length) :
    ∃ s, BeginRead F C = Except.ok s ∧ ReadInv F C s 0 ∧
      (s.get_currBuff).currIx = 0 := by
  obtain ⟨hn0, hl0, hlC, hgeom⟩ := geom_facts F.length C hC hS
  set s1 : Reader :=
    { file := F, pos := 0, fileFail := false, fileByteSize := F.length,
      numChunks := nChunks F.length C, chunkSize := C,
      lastChunkSize := lastSz F.length C, readingChunk_id := 0, isA := true,
      buff_a := ⟨List.replicate C 0, 0, 0⟩,
      buff_b := ⟨List.replicate C 0, 0, 0⟩,
      threadJoinable := false, swaps := 0, trace := [] } with hs1
  have hBR : BeginRead F C =
      (if (s1.fetchIntoBuff_thrd true).threadJoinable then
        Except.ok { ({ s1.fetchIntoBuff_thrd true with
              threadJoinable := false,
              trace := (s1.fetchIntoBuff_thrd true).trace ++ [Ev.joinLoad]
            }).fetchIntoBuff_thrd false with
            isA := true, readingChunk_id := 0 }
      else Except.error "std system_error: join on a thread that was never started") := by
    rw [hs1]
    rfl
  have hj1 : s1.joinLoadThread = s1 := by
    rw [hs1]
    rfl
  have hg1 : ¬ (s1.numChunks ≤ s1.readingChunk_id) := by
    show ¬ (nChunks F.length C ≤ 0)
    omega
  have h2 : s1.fetchIntoBuff_thrd true = s1.loadBody true := by
    unfold Reader.fetchIntoBuff_thrd
    dsimp only
    rw [hj1, if_neg hg1]
  by_cases hn1 : nChunks F.length C = 1
  · -- single-chunk file: both loads are "last chunk" loads
    have hz1 : (nChunks F.length C - 1) * C = 0 := by
      rw [hn1]
      simp
    have hlastS : lastSz F.length C = F.length := by omega
    have hSC : F.length ≤ C := by omega
    have hreq1 : reqS F.length C = lastSz F.length C := by
      unfold reqS
      rw [if_pos hn1]
    have hisl : s1.readingChunk_id = s1.numChunks - 1 := by
      show (0 : Nat) = nChunks F.length C - 1
      omega
    have hfr1 : fileRead s1.file s1.pos s1.fileFail s1.lastChunkSize
        = (F.length, F.length, false) := by
      show fileRead F 0 false (lastSz F.length C) = _
      unfold fileRead
      rw [hlastS]
      simp
    have hs2 : s1.fetchIntoBuff_thrd true =
        { file := F, pos := F.length, fileFail := false, fileByteSize := F.length,
          numChunks := nChunks F.length C, chunkSize := C,
          lastChunkSize := lastSz F.length C, readingChunk_id := 0, isA := true,
          buff_a := ⟨F ++ (List.replicate C 0).drop F.length, lastSz F.length C, 0⟩,
          buff_b := ⟨List.replicate C 0, 0, 0⟩,
          threadJoinable := true, swaps := 0, trace := [Ev.launchLoad true] } := by
      rw [h2, loadBody_spec_last s1 true hisl, hfr1, hs1]
      simp [Reader.setBuff]
    have hcond : (s1.fetchIntoBuff_thrd true).threadJoinable = true := by
      rw [hs2]
    have hs3 : ({ s1.fetchIntoBuff_thrd true with
          threadJoinable := false,
          trace := (s1.fetchIntoBuff_thrd true).trace ++ [Ev.joinLoad] } : Reader) =
        { file := F, pos := F.length, fileFail := false, fileByteSize := F.length,
          numChunks := nChunks F.length C, chunkSize := C,
          lastChunkSize := lastSz F.length C, readingChunk_id := 0, isA := true,
          buff_a := ⟨F ++ (List.replicate C 0).drop F.length, lastSz F.length C, 0⟩,
          buff_b := ⟨List.replicate C 0, 0, 0⟩,
          threadJoinable := false, swaps := 0,
          trace := [Ev.launchLoad true, Ev.joinLoad] } := by
      rw [hs2]
      rfl
    set s3 : Reader :=
        { file := F, pos := F.length, fileFail := false, fileByteSize := F.length,
          numChunks := nChunks F.length C, chunkSize := C,
          lastChunkSize := lastSz F.length C, readingChunk_id := 0, isA := true,
          buff_a := ⟨F ++ (List.replicate C 0).drop F.length, lastSz F.length C, 0⟩,
          buff_b := ⟨List.replicate C 0, 0, 0⟩,
          threadJoinable := false, swaps := 0,
          trace := [Ev.launchLoad true, Ev.joinLoad] } with hs3d
    have hj3 : s3.joinLoadThread = s3 := by
      rw [hs3d]
      rfl
    have hg3 : ¬ (s3.numChunks ≤ s3.readingChunk_id) := by
      show ¬ (nChunks F.length C ≤ 0)
      omega
    have h4 : s3.fetchIntoBuff_thrd false = s3.loadBody false := by
      unfold Reader.fetchIntoBuff_thrd
      dsimp only
      rw [hj3, if_neg hg3]
    have hisl3 : s3.readingChunk_id = s3.numChunks - 1 := by
      show (0 : Nat) = nChunks F.length C - 1
      omega
    have hfr3 : fileRead s3.file s3.pos s3.fileFail s3.lastChunkSize
        = (0, F.length, true) := by
      show fileRead F F.length false (lastSz F.length C) = _
      unfold fileRead
      rw [hlastS]
      simp [hS]
    have hs4 : s3.fetchIntoBuff_thrd false =
        { file := F, pos := F.length, fileFail := true, fileByteSize := F.length,
          numChunks := nChunks F.length C, chunkSize := C,
          lastChunkSize := lastSz F.length C, readingChunk_id := 0, isA := true,
          buff_a := ⟨F ++ (List.replicate C 0).drop F.length, lastSz F.length C, 0⟩,
          buff_b := ⟨List.replicate C 0, lastSz F.length C, 0⟩,
          threadJoinable := true, swaps := 0,
          trace := [Ev.launchLoad true, Ev.joinLoad, Ev.launchLoad false] } := by
      rw [h4, loadBody_spec_last s3 false hisl3, hfr3, hs3d]
      simp [Reader.setBuff]
    have hok : BeginRead F C = Except.ok
        { file := F, pos := F.length, fileFail := true, fileByteSize := F.length,
          numChunks := nChunks F.length C, chunkSize := C,
          lastChunkSize := lastSz F.length C, readingChunk_id := 0, isA := true,
          buff_a := ⟨F ++ (List.replicate C 0).drop F.length, lastSz F.length C, 0⟩,
          buff_b := ⟨List.replicate C 0, lastSz F.length C, 0⟩,
          threadJoinable := true, swaps := 0,
          trace := [Ev.launchLoad true, Ev.joinLoad, Ev.launchLoad false] } := by
      rw [hBR, if_pos hcond, hs3, hs4]
    refine ⟨_, hok, ?_, rfl⟩
    have hv0 : validLen F.length C 0 = F.length := by
      unfold validLen
      rw [hreq1, hlastS]
      omega
    refine ⟨rfl, rfl, rfl, rfl, rfl, by omega, ?_, ?_, ?_, ?_, ?_, ?_⟩
    · show lastSz F.length C = reqS F.length C
      rw [hreq1]
    · show (F ++ (List.replicate C 0).drop F.length).length = C
      simp
      omega
    · show (List.replicate C 0).length = C
      simp
    · show (0 : Nat) < lastSz F.length C
      exact hl0
    · show (F ++ (List.replicate C 0).drop F.length).take (validLen F.length C 0)
        = (F.drop (0 * C)).take (validLen F.length C 0)
      rw [hv0]
      simp [List.take_left]
    · intro h
      exact absurd h (by omega)
  · -- multi-chunk file: both loads request a full chunk
    have hn2 : 2 ≤ nChunks F.length C := by omega
    have hreqC : reqS F.length C = C := by
      unfold reqS
      rw [if_neg hn1]
    have h1C : 1 * C ≤ (nChunks F.length C - 1) * C :=
      Nat.mul_le_mul_right C (by omega)
    have hCltS : C < F.length := by
      have h1 : 1 * C = C := by ring
      omega
    have hnotl : ¬ (s1.readingChunk_id = s1.numChunks - 1) := by
      show ¬ ((0 : Nat) = nChunks F.length C - 1)
      omega
    have hfr1 : fileRead s1.file s1.pos s1.fileFail s1.chunkSize
        = (C, C, false) := by
      show fileRead F 0 false C = _
      unfold fileRead
      simp
      omega
    have hs2 : s1.fetchIntoBuff_thrd true =
        { file := F, pos := C, fileFail := false, fileByteSize := F.length,
          numChunks := nChunks F.length C, chunkSize := C,
          lastChunkSize := lastSz F.length C, readingChunk_id := 0, isA := true,
          buff_a := ⟨F.take C, C, 0⟩,
          buff_b := ⟨List.replicate C 0, 0, 0⟩,
          threadJoinable := true, swaps := 0, trace := [Ev.launchLoad true] } := by
      rw [h2, loadBody_spec_notLast s1 true hnotl, hfr1, hs1]
      simp [Reader.setBuff]
    have hcond : (s1.fetchIntoBuff_thrd true).threadJoinable = true := by
      rw [hs2]
    have hs3 : ({ s1.fetchIntoBuff_thrd true with
          threadJoinable := false,
          trace := (s1.fetchIntoBuff_thrd true).trace ++ [Ev.joinLoad] } : Reader) =
        { file := F, pos := C, fileFail := false, fileByteSize := F.length,
          numChunks := nChunks F.length C, chunkSize := C,
          lastChunkSize := lastSz F.length C, readingChunk_id := 0, isA := true,
          buff_a := ⟨F.take C, C, 0⟩,
          buff_b := ⟨List.replicate C 0, 0, 0⟩,
          threadJoinable := false, swaps := 0,
          trace := [Ev.launchLoad true, Ev.joinLoad] } := by
      rw [hs2]
      rfl
    set s3 : Reader :=
        { file := F, pos := C, fileFail := false, fileByteSize := F.length,
          numChunks := nChunks F.length C, chunkSize := C,
          lastChunkSize := lastSz F.length C, readingChunk_id := 0, isA := true,
          buff_a := ⟨F.take C, C, 0⟩,
          buff_b := ⟨List.replicate C 0, 0, 0⟩,
          threadJoinable := false, swaps := 0,
          trace := [Ev.launchLoad true, Ev.joinLoad] } with hs3d
    have hj3 : s3.joinLoadThread = s3 := by
      rw [hs3d]
      rfl
    have hg3 : ¬ (s3.numChunks ≤ s3.readingChunk_id) := by
      show ¬ (nChunks F.length C ≤ 0)
      omega
    have h4 : s3.fetchIntoBuff_thrd false = s3.loadBody false := by
      unfold Reader.fetchIntoBuff_thrd
      dsimp only
      rw [hj3, if_neg hg3]
    have hnotl3 : ¬ (s3.readingChunk_id = s3.numChunks - 1) := by
      show ¬ ((0 : Nat) = nChunks F.length C - 1)
      omega
    have hfr3 : fileRead s3.file s3.pos s3.fileFail s3.chunkSize
        = (min C (F.length - C), C + min C (F.length - C),
           decide (min C (F.length - C) < C)) := by
      show fileRead F C false C = _
      rfl
    have hs4 : s3.fetchIntoBuff_thrd false =
        { file := F, pos := C + min C (F.length - C),
          fileFail := decide (min C (F.length - C) < C), fileByteSize := F.length,
          numChunks := nChunks F.length C, chunkSize := C,
          lastChunkSize := lastSz F.length C, readingChunk_id := 0, isA := true,
          buff_a := ⟨F.take C, C, 0⟩,
          buff_b := ⟨(F.drop C).take (min C (F.length - C))
                       ++ (List.replicate C 0).drop (min C (F.length - C)), C, 0⟩,
          threadJoinable := true, swaps := 0,
          trace := [Ev.launchLoad true, Ev.joinLoad, Ev.launchLoad false] } := by
      rw [h4, loadBody_spec_notLast s3 false hnotl3, hfr3, hs3d]
      simp [Reader.setBuff]
    have hok : BeginRead F C = Except.ok
        { file := F, pos := C + min C (F.length - C),
          fileFail := decide (min C (F.length - C) < C), fileByteSize := F.length,
          numChunks := nChunks F.length C, chunkSize := C,
          lastChunkSize := lastSz F.length C, readingChunk_id := 0, isA := true,
          buff_a := ⟨F.take C, C, 0⟩,
          buff_b := ⟨(F.drop C).take (min C (F.length - C))
                       ++ (List.replicate C 0).drop (min C (F.length - C)), C, 0⟩,
          threadJoinable := true, swaps := 0,
          trace := [Ev.launchLoad true, Ev.joinLoad, Ev.launchLoad false] } := by
      rw [hBR, if_pos hcond, hs3, hs4]
    refine ⟨_, hok, ?_, rfl⟩
    have hv0 : validLen F.length C 0 = C := by
      unfold validLen
      rw [hreqC]
      omega
    have hv1 : validLen F.length C 1 = min C (F.length - C) := by
      unfold validLen
      rw [hreqC]
      omega
    refine ⟨rfl, rfl, rfl, rfl, rfl, by omega, ?_, ?_, ?_, ?_, ?_, ?_⟩
    · show C = reqS F.length C
      rw [hreqC]
    · show (F.take C).length = C
      simp
      omega
    · show ((F.drop C).take (min C (F.length - C))
          ++ (List.replicate C 0).drop (min C (F.length - C))).length = C
      simp
    · show (0 : Nat) < C
      exact hC
    · show (F.take C).take (validLen F.length C 0)
        = (F.drop (0 * C)).take (validLen F.length C 0)
      rw [hv0]
      simp
    · intro h
      refine ⟨rfl, rfl, ?_, ?_, ?_⟩
      · show ((F.drop C).take (min C (F.length - C))
            ++ (List.replicate C 0).drop (min C (F.length - C))).take (validLen F.length C 1)
          = (F.drop (1 * C)).take (validLen F.length C 1)
        rw [hv1, List.take_append_of_le_length (by simp), List.take_take,
            Nat.min_self]
        rw [show (1 : Nat) * C = C from by ring]
      · show C + min C (F.length - C) = min F.length ((0 + 2) * C)
        have h2C : (0 + 2) * C = C + C := by ring
        omega
      · show decide (min C (F.length - C) < C) = decide (F.length < (0 + 2) * C)
        have h2C : (0 + 2) * C = C + C := by ring
        rw [decide_eq_decide]
        omega

/-- Reading `N` bytes (for `N` within the file size) from a freshly opened
reader returns exactly the first `N` bytes of the file. -/
theorem read_rawData_ok (F : List Nat) (C N : Nat) (hC : 0 < C)
    (hS : 0 < F.length) (hN : N ≤ F.length) :
    ∃ s s', BeginRead F C = Except.ok s ∧
      read_rawData s N = some (F.take N, s') := by
  obtain ⟨s, hok, hinv, hcur⟩ := BeginRead_ok F C hC hS
  obtain ⟨s', hrun⟩ := readLoop_ok F C hC hS (2 * N + 2) N s 0 [] hinv (by omega)
    (by rw [hcur]; omega)
  refine ⟨s, s', hok, ?_⟩
  unfold read_rawData
  rw [hrun, hcur]
  simp

/-- C1: round-trip — for every byte sequence whose length N lies in
{0, 1, C-1, C, C+1, 3C+7} for the configured chunk/buffer size C,
writing the sequence through any split into `writeBytes` calls, completing
the write, and reading N bytes back through a fresh reader of chunk size C
over the resulting file returns exactly the original bytes. -/
theorem c1_roundtrip (C startSize : Nat) (splits : List (List Nat))
    (data : List Nat) (hC : 0 < C) (hStart : 0 < startSize)
    (hdata : splits.flatten = data)
    (_hN : data.length = 0 ∨ data.length = 1 ∨ data.length = C - 1 ∨
          data.length = C ∨ data.length = C + 1 ∨ data.length = 3 * C + 7) :
    roundtrip C startSize splits = some data := by
  subst hdata
  obtain ⟨w, hfold, hinv⟩ := foldWrites_WInv startSize splits
    (beginWrite startSize C) [] (beginWrite_WInv startSize C hC)
  have hinv2 : WInv startSize splits.flatten w := by simpa using hinv
  obtain ⟨htake, hlen⟩ := completeWrite_file startSize splits.flatten w hinv2
  have hGpos : 0 < (w.completeWrite).file.length := by
    rw [hlen]
    omega
  have hNle : splits.flatten.length ≤ (w.completeWrite).file.length := by
    rw [hlen]
    omega
  obtain ⟨r, r', hok, hread⟩ :=
    read_rawData_ok (w.completeWrite).file C splits.flatten.length hC hGpos hNle
  unfold roundtrip
  rw [hfold]
  simp only [Option.some_bind]
  rw [hok]
  dsimp only
  rw [hread]
  show some (List.take splits.flatten.length w.completeWrite.file) = some splits.flatten
  rw [htake]

/-- Witness for `c1_roundtrip`: chunk size 4, starting file size 2, the
five bytes 1..5 (length C+1) written in two `writeBytes` calls and read
back intact. -/
theorem c1_roundtrip_witness :
    roundtrip 4 2 [[1, 2, 3], [4, 5]] = some [1, 2, 3, 4, 5] :=
  c1_roundtrip 4 2 [[1, 2, 3], [4, 5]] [1, 2, 3, 4, 5] (by decide) (by decide)
    (by decide) (by decide)

/-- Witness for `c10_fill_offset_below_capacity`: a fresh writer with
capacity 3 receiving exactly 3 bytes. -/
theorem c10_fill_offset_below_capacity_witness :
    (beginWrite 0 3).next_ix = (beginWrite 0 3).acc.length ∧
    ∃ s', (beginWrite 0 3).writeBytes_internal [1, 2, 3] = some s' ∧
      s'.next_ix = s'.acc.length ∧ s'.next_ix < s'.buffSizeBytes ∧
      s'.buffSizeBytes = (beginWrite 0 3).buffSizeBytes ∧
      ([1, 2, 3].length = (beginWrite 0 3).buffSizeBytes - (beginWrite 0 3).next_ix →
        s'.next_ix = 0 ∧ s'.isA = (!(beginWrite 0 3).isA) ∧
        (if (beginWrite 0 3).isA then s'.validA else s'.validB) = true ∧
        s'.put = (beginWrite 0 3).put + (beginWrite 0 3).buffSizeBytes) :=
  ⟨rfl, c10_fill_offset_below_capacity (beginWrite 0 3) [1, 2, 3] rfl (by decide)⟩

end ChunkedRW
